import Mathlib

/-!
# HAA OTA installer: a shallow embedding of `devices/HAA_OTA/ota.c`

The C code is embedded as executable Lean functions.

* A C string is held as the list of its characters (all non-NUL); the
  terminating NUL is implicit.  A `char` array is a list of bytes of the
  array's length, and `cstr` reads the C string that starts it.
* C `int`s are `Int`/`Nat` values; the one place where unsigned wrap-around
  decides the control flow (the loop bound of `strstr_lc`) is computed
  modulo `2 ^ w`.
* Network and flash are explicit: every `ota_connect` takes the next
  connection of a script, a connection carries the results of the writes and
  of the reads made on it, and the flash operations and buffer copies that a
  call issues are recorded in a trace.  A request is recorded as the text
  that the code builds in `recv_buf` and hands to the write call.
* An outcome is a value, a `fault` (the C code dereferences NULL, reads
  outside a string, or copies or stores past the end of an array or of a heap
  block) or `pending` (the script of network results ended before the call
  returned).  `malloc` and `realloc` are taken to succeed.
-/

namespace HAA_OTA

/-! ## Constants that `ota.c` takes from headers -/

/-- The constants of `header.h`, `ota.h` and the rboot headers used by `ota.c`.
They are parameters of the embedding. -/
structure Config where
  HOST_LEN : Nat
  RECV_BUF_LEN : Nat
  HEADER_BUFFER_LEN : Nat
  MAX_302_JUMPS : Nat
  MAXFILESIZE : Int
  BOOT0SECTOR : Nat
  BOOT1SECTOR : Nat
  VERSIONFILESIZE : Nat
  /-- the string literal `REQUESTHEAD` -/
  REQUESTHEAD : List Nat
  /-- the string literal `REQUESTTAIL` -/
  REQUESTTAIL : List Nat
  /-- the string literal `RANGE` -/
  RANGE : List Nat

/-- Modelled from the spec: `SPI_FLASH_SECTOR_SIZE` of the flash driver's
header, which is not part of the sources; the spec's glossary gives the erase
unit as 4096 bytes. -/
def SPI_FLASH_SECTOR_SIZE : Nat := 4096

/-- Modelled from the spec: the macro `CRLFCRLF` of `ota.h`, which is not part
of the sources; the spec names it the `CRLF CRLF` terminator of the header
(the code skips it with `+ 4`). -/
def CRLFCRLF : List Nat := [13, 10, 13, 10]

/-- Width of `size_t` on the ESP8266 target. -/
def SIZE_BITS : Nat := 32

/-! ## Outcomes -/

/-- Outcome of a modelled call. -/
inductive Outcome (α : Type) where
  /-- the call returns -/
  | ret (a : α)
  /-- the C code leaves defined behaviour (NULL dereference, read outside a
  string, copy past the end of an array) -/
  | fault
  /-- the script of network results ended before the call returned -/
  | pending
deriving DecidableEq, Repr

/-! ## C library functions -/

/-- `tolower` of the C locale. -/
def tolower (c : Nat) : Nat := if 65 ≤ c ∧ c ≤ 90 then c + 32 else c

/-- `isspace` of the C locale. -/
def isspace (c : Nat) : Bool := c == 32 || (9 ≤ c && c ≤ 13)

/-- `isdigit`. -/
def isdigit (c : Nat) : Bool := 48 ≤ c && c ≤ 57

/-- The C string stored at the start of a byte array: the bytes before the
first NUL. -/
def cstr (buf : List Nat) : List Nat := buf.takeWhile (fun c => c != 0)

/-- The C string in a `char` array as `strlen`, `strcat` and `%s` read it:
`none` when the array holds no NUL, so that the read runs past its end. -/
def cstr_of (buf : List Nat) : Option (List Nat) :=
  if 0 ∈ buf then some (cstr buf) else none

/-- `s[i]` for a C string held as its characters: the characters, then the
terminating NUL at index `strlen s`; an index beyond the terminator is outside
the string. -/
def charAt (s : List Nat) (i : Nat) : Option Nat := (s ++ [0])[i]?

/-- `strchr(s, c)` for `c ≠ 0`: the index of the first `c`, `none` for NULL. -/
def strchr (c : Nat) : List Nat → Option Nat
  | [] => none
  | x :: xs => if x = c then some 0 else (strchr c xs).map (fun i => i + 1)

/-- `memset(dst, 0, n)` on an array of `n` bytes. -/
def zeroed (n : Nat) : List Nat := List.replicate n 0

/-- `memcpy(dst, src, n)` into the array `dst`: `none` when `n` bytes do not
fit the array. -/
def memcpy (dst src : List Nat) (n : Nat) : Option (List Nat) :=
  if n ≤ dst.length then some (src.take n ++ dst.drop n) else none

/-- `strcpy(dst, src)` into the array `dst`: `none` when `src` and its
terminating NUL do not fit the array. -/
def strcpy (dst src : List Nat) : Option (List Nat) :=
  if src.length + 1 ≤ dst.length then some (src ++ [0] ++ dst.drop (src.length + 1)) else none

/-- `realloc(block, n)`: the first `n` bytes of the block are kept.  The bytes
added are indeterminate in C and zero here; in `ota.c` they lie behind the
terminator of the string in the block and are overwritten or never read. -/
def realloc (block : List Nat) (n : Nat) : List Nat :=
  block.take n ++ zeroed (n - block.length)

/-- The text that `%d` prints for a non-negative `int`. -/
def decimal (n : Nat) : List Nat := (Nat.toDigits 10 n).map Char.toNat

/-- The decimal digits at the start of a string, accumulated. -/
def digitsVal : List Nat → Nat → Nat
  | [], acc => acc
  | c :: cs, acc => if isdigit c then digitsVal cs (acc * 10 + (c - 48)) else acc

/-- Narrowing to the range of a 32-bit `int` by saturation. -/
def clampInt (v : Int) : Int := max (-2147483648) (min 2147483647 v)

/-- `atoi`: white space, an optional sign, decimal digits.  Out of the range of
`int` the C standard leaves the value open; the C library of the target
(newlib, `strtol`) saturates. -/
def atoi (s : List Nat) : Int :=
  match s.dropWhile isspace with
  | 45 :: r => clampInt (-(digitsVal r 0 : Int))
  | 43 :: r => clampInt (digitsVal r 0)
  | r => clampInt (digitsVal r 0)

/-! ## `strstr_lc` -/

/-- Result of `strstr_lc`. -/
inductive Search where
  /-- returns `full_string + i` -/
  | found (i : Nat)
  /-- returns NULL -/
  | null
  /-- the loop reads `full_string[i]` beyond the terminating NUL -/
  | outside (i : Nat)
deriving DecidableEq, Repr

/-- The inner loop of `strstr_lc` (`for (j = 0; j < search_len; j++)`) entered
at `j` with `n` iterations left: `some r` when the loop returns from the
function or reads outside the string, `none` when it ends by `break` or by its
condition. -/
def strstr_lc_inner (full search : List Nat) (i : Nat) : Nat → Nat → Option Search
  | 0, _ => none
  | n + 1, j =>
    match charAt full (i + j) with
    | none => some (Search.outside (i + j))
    | some c =>
      if tolower c ≠ tolower (search.getD j 0) then none
      else if j = search.length - 1 then some (Search.found i)
      else strstr_lc_inner full search i n (j + 1)

/-- `a - b` in unsigned `w`-bit arithmetic for `a, b < 2 ^ w`: the difference
modulo `2 ^ w` (`size_sub_eq_mod`), written by cases so that it evaluates on
symbolic lengths. -/
def size_sub (w a b : Nat) : Nat := if b ≤ a then a - b else 2 ^ w - (b - a)

/-- The outer loop of `strstr_lc`,
`for (i = 0; i <= strlen(full_string) - search_len; i++)`, with the bound in
`size_t` arithmetic modulo `2 ^ w`.  `fuel` counts the iterations left; a read
beyond the terminating NUL ends the run, so `strlen + 2` iterations are
always enough (`strstr_lc_loop_fuel`). -/
def strstr_lc_loop (w : Nat) (full search : List Nat) : Nat → Nat → Search
  | 0, i => Search.outside i
  | fuel + 1, i =>
    if i ≤ size_sub w full.length search.length then
      match charAt full i with
      | none => Search.outside i
      | some c =>
        if tolower c = tolower (search.getD 0 0) then
          match strstr_lc_inner full search i search.length 0 with
          | some r => r
          | none => strstr_lc_loop w full search fuel (i + 1)
        else strstr_lc_loop w full search fuel (i + 1)
    else Search.null

/-- `strstr_lc(full_string, search)` with a `w`-bit `size_t`. -/
def strstr_lc (w : Nat) (full search : List Nat) : Search :=
  strstr_lc_loop w full search (full.length + 2) 0

/-! ## Globals -/

/-- The static variables of `ota.c` that the modelled functions touch. -/
structure Globals where
  /-- `static char last_host[HOST_LEN]` -/
  last_host : List Nat
  /-- `static char last_location[RECV_BUF_LEN]` -/
  last_location : List Nat
  /-- `static byte file_first_byte[] = { 0xff }` -/
  file_first_byte : Nat
deriving DecidableEq, Repr

/-- The statics at program start. -/
def Globals.init (cfg : Config) : Globals :=
  { last_host := zeroed cfg.HOST_LEN
    last_location := zeroed cfg.RECV_BUF_LEN
    file_first_byte := 255 }

/-! ## URL splitter -/

/-- `ota_get_host(repo)`: the new contents of `last_host`, `none` when the
`memcpy` runs past the array. -/
def ota_get_host (cfg : Config) (repo : List Nat) : Option (List Nat) :=
  match strchr 47 repo with
  | some found => memcpy (zeroed cfg.HOST_LEN) repo found
  | none => memcpy (zeroed cfg.HOST_LEN) repo repo.length

/-- `ota_get_location(repo)`: the new contents of `last_location`, `none` when
the `memcpy` runs past the array. -/
def ota_get_location (cfg : Config) (repo : List Nat) : Option (List Nat) :=
  match strchr 47 repo with
  | some found =>
    memcpy (zeroed cfg.RECV_BUF_LEN) (repo.drop (found + 1)) ((repo.drop found).length - 1)
  | none =>
    match zeroed cfg.RECV_BUF_LEN with
    | [] => none
    | _ :: t => some (0 :: t)

/-- The two calls `ota_get_host(s); ota_get_location(s);` on the globals. -/
def split_repo (cfg : Config) (g : Globals) (s : List Nat) : Option Globals :=
  match ota_get_host cfg s, ota_get_location cfg s with
  | some h, some l => some { g with last_host := h, last_location := l }
  | _, _ => none

/-! ## Bootloader liaison -/

/-- Modelled from the spec: the record `rboot_config` of the rboot headers,
which are not part of the sources.  The spec names the fields `count`, `roms`
and `current_rom`; `other` holds every field that `ota_init` does not touch. -/
structure rboot_config where
  count : Nat
  roms : Nat → Nat
  current_rom : Nat
  other : List Nat

/-- Modelled from the spec: the bootloader API (`get_config`, `set_config` on
the two-slot record), which is not part of the sources: `rboot_get_config`
returns the stored record, `rboot_set_config` replaces it.  `set_calls` counts
the calls of `rboot_set_config`. -/
structure Rboot where
  stored : rboot_config
  set_calls : Nat

/-- The rboot setup of `ota_init`. -/
def ota_init (cfg : Config) (r : Rboot) : Rboot :=
  let conf := r.stored
  if conf.count ≠ 2 ∨ conf.roms 0 ≠ cfg.BOOT0SECTOR ∨ conf.roms 1 ≠ cfg.BOOT1SECTOR
      ∨ conf.current_rom ≠ 0 then
    let conf := { conf with count := 2 }
    let conf := { conf with roms := Function.update conf.roms 0 cfg.BOOT0SECTOR }
    let conf := { conf with roms := Function.update conf.roms 1 cfg.BOOT1SECTOR }
    let conf := { conf with current_rom := 0 }
    { stored := conf, set_calls := r.set_calls + 1 }
  else r

/-! ## Flash -/

/-- Flash contents: the byte at each address. -/
abbrev Flash := Nat → Nat

/-- Success of the flash driver's calls, by address (and length). -/
structure Drv where
  readOk : Nat → Nat → Bool
  eraseOk : Nat → Bool
  writeOk : Nat → Nat → Bool

/-- A driver whose calls all succeed. -/
def Drv.good : Drv :=
  { readOk := fun _ _ => true, eraseOk := fun _ => true, writeOk := fun _ _ => true }

/-- The bytes that `spiflash_read(addr, buf, len)` delivers. -/
def flash_bytes (fl : Flash) (addr len : Nat) : List Nat :=
  (List.range len).map (fun k => fl (addr + k))

/-- An operation issued on a sink. -/
inductive SinkOp where
  /-- `spiflash_erase_sector(addr)` -/
  | erase (addr : Nat)
  /-- `spiflash_write(addr, data, len)` -/
  | write (addr : Nat) (data : List Nat)
  /-- `memcpy(buffer, data, len)` into the caller's buffer -/
  | copy (data : List Nat)
deriving DecidableEq, Repr

/-- Effect of an operation on the flash: an erase sets the sector that
contains the address to `0xFF`, a write stores its bytes at
`addr .. addr + len` and changes nothing else. -/
def SinkOp.apply : SinkOp → Flash → Flash
  | SinkOp.erase a, fl =>
    fun x => if x / SPI_FLASH_SECTOR_SIZE = a / SPI_FLASH_SECTOR_SIZE then 255 else fl x
  | SinkOp.write a d, fl =>
    fun x => if a ≤ x ∧ x < a + d.length then d.getD (x - a) 0 else fl x
  | SinkOp.copy _, fl => fl

/-- Effect of a trace of operations, oldest first. -/
def run_ops (ops : List SinkOp) (fl : Flash) : Flash :=
  ops.foldl (fun f op => op.apply f) fl

/-! ## Signature verifier -/

/-- The `for` loop of `ota_verify_sign`; the state is `bytes`, the contents of
`buffer` and the blocks passed to `wc_Sha384Update` so far.  Each iteration
adds 1024 to `bytes`, so `filesize` iterations of fuel are never used up
(`verify_loop_fuel`). -/
def verify_loop (drv : Drv) (fl : Flash) (g : Globals) (start_sector : Nat) (filesize : Int) :
    Nat → Nat → List Nat → List (List Nat) → Nat × List Nat × List (List Nat)
  | 0, bytes, buffer, fed => (bytes, buffer, fed)
  | fuel + 1, bytes, buffer, fed =>
    if (bytes : Int) < filesize - 1024 then
      if drv.readOk (start_sector + bytes) 1024 then
        let buffer := flash_bytes fl (start_sector + bytes) 1024
        let buffer := if bytes = 0 then buffer.set 0 g.file_first_byte else buffer
        verify_loop drv fl g start_sector filesize fuel (bytes + 1024) buffer (fed ++ [buffer])
      else (bytes, buffer, fed)
    else (bytes, buffer, fed)

/-- The blocks that `ota_verify_sign(start_sector, filesize, signature)` passes
to `wc_Sha384Update`, in order; `stack` is the initial content of the local
`buffer[1024]`.  `none` when the last read does not fit `buffer`. -/
def ota_verify_sign_blocks (drv : Drv) (fl : Flash) (g : Globals) (stack : List Nat)
    (start_sector : Nat) (filesize : Int) : Option (List (List Nat)) :=
  match verify_loop drv fl g start_sector filesize filesize.toNat 0 stack [] with
  | (bytes, buffer, fed) =>
    let n := filesize - bytes
    if n < 0 ∨ 1024 < n then none
    else
      let buffer :=
        if drv.readOk (start_sector + bytes) n.toNat then
          flash_bytes fl (start_sector + bytes) n.toNat ++ buffer.drop n.toNat
        else buffer
      some (fed ++ [buffer.take n.toNat])

/-- `ota_verify_sign`: `verify - 1`, where `check sig msg` tells whether `sig`
is a valid signature (SHA-384, ECDSA P-384, the embedded public key) of the
bytes `msg` that were hashed. -/
def ota_verify_sign (check : List Nat → List Nat → Bool) (drv : Drv) (fl : Flash) (g : Globals)
    (stack : List Nat) (start_sector : Nat) (filesize : Int) (signature : List Nat) :
    Option Int :=
  (ota_verify_sign_blocks drv fl g stack start_sector filesize).map
    (fun fed => if check signature fed.flatten then 0 else -1)

/-- `ota_finalize_file(sector)`: the operation it issues. -/
def ota_finalize_file (g : Globals) (sector : Nat) : List SinkOp :=
  [SinkOp.write sector [g.file_first_byte]]

/-! ## Network scripts -/

/-- Result of one `lwip_read` / `wolfSSL_read` into `recv_buf` (zeroed before,
at most `RECV_BUF_LEN - 1` bytes). -/
inductive Recv where
  /-- the read returns `bytes.length` and delivers `bytes` -/
  | data (bytes : List Nat)
  /-- the read returns `-n`: 0 on a clean close, negative on an error -/
  | fail (n : Nat)
deriving DecidableEq, Repr

/-- The value a read returns. -/
def Recv.ret : Recv → Int
  | Recv.data bytes => bytes.length
  | Recv.fail n => -(n : Int)

/-- The bytes a read leaves in `recv_buf`. -/
def Recv.bytes : Recv → List Nat
  | Recv.data bytes => bytes
  | Recv.fail _ => []

/-- What one call of `ota_connect` yields: its return value, and the results
of the writes and of the reads made on the connection, in order. -/
structure Conn where
  retc : Int
  sends : List Int
  recvs : List Recv
deriving DecidableEq, Repr

/-- A request sent: the bytes handed to `lwip_write` / `wolfSSL_write`. -/
abbrev Request := List Nat

/-- The transport of a call: TLS or not, and `wolfSSL_get_error`. -/
structure Net where
  is_ssl : Bool
  get_error : Int → Int

/-! ## Redirect resolution -/

/-- The string literal `"http/1.1 "`. -/
def lit_http : List Nat := [104, 116, 116, 112, 47, 49, 46, 49, 32]

/-- The string literal `"\nlocation:"`. -/
def lit_location : List Nat := [10, 108, 111, 99, 97, 116, 105, 111, 110, 58]

/-- The string literal `"//"`. -/
def lit_slashes : List Nat := [47, 47]

/-- `strcat(dst, src)` on the array `dst`: `none` when the result and its
terminating NUL do not fit the array. -/
def strcat (dst src : List Nat) : Option (List Nat) :=
  let s := cstr dst ++ src
  if s.length + 1 ≤ dst.length then some (s ++ [0] ++ dst.drop (s.length + 1)) else none

/-- The locals and globals of `ota_get_final_location` across its loop. -/
structure FL where
  i : Nat
  ret : Int
  retc : Int
  g : Globals
  requests : List Request
deriving DecidableEq, Repr

/-- The `do ... while (ret > 0 && buffer_len < HEADER_BUFFER_LEN)` loop of
`ota_get_final_location` on the heap block `buffer`: the last `ret`, the
block, `buffer_len` and `all_ok`.  Every read that delivers data enlarges the
block to the new `buffer_len` with `realloc` and appends the string in
`recv_buf` with `strcat`. -/
def fl_recv_loop (cfg : Config) :
    List Recv → List Nat → Nat → Bool → Outcome (Int × List Nat × Nat × Bool)
  | [], _, _, _ => Outcome.pending
  | r :: rs, buffer, buffer_len, all_ok =>
    if r.ret > 0 then
      let buffer_len := buffer_len + (cstr r.bytes).length
      match strcat (realloc buffer buffer_len) (cstr r.bytes) with
      | none => Outcome.fault
      | some buffer =>
        if buffer_len < cfg.HEADER_BUFFER_LEN then fl_recv_loop cfg rs buffer buffer_len true
        else Outcome.ret (r.ret, buffer, buffer_len, true)
    else Outcome.ret (r.ret, buffer, buffer_len, all_ok)

/-- The `if (all_ok)` branch of `ota_get_final_location` from
`location = strstr_lc(buffer, "http/1.1 ")` on: the status line and the
`Location:` header of the response string `buffer`. -/
def fl_parse (cfg : Config) (st : FL) (buffer : List Nat) : Outcome FL :=
  match strstr_lc SIZE_BITS buffer lit_http with
  | Search.outside _ => Outcome.fault
  | Search.null => Outcome.ret { st with i := cfg.MAX_302_JUMPS % 256, ret := -3 }
  | Search.found p =>
    let slash := atoi (buffer.drop (p + 9)) % 65536
    if slash = 200 ∨ slash = 206 then
      Outcome.ret { st with i := cfg.MAX_302_JUMPS % 256 }
    else if slash = 302 then
      match strstr_lc SIZE_BITS buffer lit_location with
      | Search.outside _ => Outcome.fault
      | Search.null => Outcome.ret { st with i := cfg.MAX_302_JUMPS % 256, ret := -1 }
      | Search.found q =>
        match strchr 13 (buffer.drop q) with
        | none => Outcome.fault
        | some c =>
          let line := buffer.take (q + c)
          let q1 := if charAt line (q + 10) = some 32 then q + 1 else q
          match strstr_lc SIZE_BITS (line.drop q1) lit_slashes with
          | Search.found k =>
            match split_repo cfg st.g (line.drop (q1 + k + 2)) with
            | some g => Outcome.ret { st with g := g }
            | none => Outcome.fault
          | _ => Outcome.fault
    else
      Outcome.ret { st with i := cfg.MAX_302_JUMPS % 256, ret := -2 }

/-- The `if (all_ok)` branch of `ota_get_final_location` on the heap block
`buffer`: `ret = buffer_len`, the store `buffer[ret] = 0`, which is a fault
when `ret` is not an index of the block, and the parse of the string in the
block. -/
def fl_response (cfg : Config) (st : FL) (buffer : List Nat) (buffer_len : Nat) : Outcome FL :=
  let st := { st with ret := buffer_len }
  if buffer_len < buffer.length then fl_parse cfg st (cstr (buffer.set buffer_len 0))
  else Outcome.fault

/-- The request of `ota_get_final_location`, built in the zeroed `recv_buf`
by `strcpy` and the chain of `strcat`: the contents of `recv_buf`, `none` when
`last_location` or `last_host` holds no NUL or the text and its terminator do
not fit `recv_buf`. -/
def fl_request (cfg : Config) (g : Globals) : Option (List Nat) := do
  let location ← cstr_of g.last_location
  let host ← cstr_of g.last_host
  let b ← strcpy (zeroed cfg.RECV_BUF_LEN) cfg.REQUESTHEAD
  let b ← strcat b location
  let b ← strcat b cfg.REQUESTTAIL
  let b ← strcat b host
  let b ← strcat b cfg.RANGE
  let b ← strcat b [48, 45, 49]
  strcat b CRLFCRLF

/-- The `while (i < MAX_302_JUMPS)` loop of `ota_get_final_location`; every
iteration builds the request in `recv_buf`, takes the next connection of the
script and, when data was read, works on a fresh heap block of `RECV_BUF_LEN`
zeroed bytes. -/
def fl_loop (cfg : Config) (net : Net) : List Conn → FL → Outcome (FL × List Conn)
  | [], st =>
    if st.i < cfg.MAX_302_JUMPS then
      match fl_request cfg st.g with
      | none => Outcome.fault
      | some _ => Outcome.pending
    else Outcome.ret (st, [])
  | c :: cs, st =>
    if st.i < cfg.MAX_302_JUMPS then
      match fl_request cfg st.g with
      | none => Outcome.fault
      | some recv_buf =>
        let send_bytes := (cstr recv_buf).length % 65536
        let st := { st with i := (st.i + 1) % 256, retc := c.retc }
        if c.retc = 0 then
          match c.sends with
          | [] => Outcome.pending
          | sent :: _ =>
            let st := { st with
              ret := sent
              requests := st.requests ++ [recv_buf.take send_bytes] }
            if sent > 0 then
              match fl_recv_loop cfg c.recvs (zeroed cfg.RECV_BUF_LEN) cfg.RECV_BUF_LEN false with
              | Outcome.pending => Outcome.pending
              | Outcome.fault => Outcome.fault
              | Outcome.ret (r, buffer, buffer_len, all_ok) =>
                if all_ok then
                  match fl_response cfg st buffer buffer_len with
                  | Outcome.ret st => fl_loop cfg net cs st
                  | Outcome.fault => Outcome.fault
                  | Outcome.pending => Outcome.pending
                else
                  fl_loop cfg net cs { st with ret := if net.is_ssl then net.get_error r else r }
            else
              fl_loop cfg net cs
                { st with ret := if net.is_ssl then net.get_error sent else sent }
        else fl_loop cfg net cs st
    else Outcome.ret (st, c :: cs)

/-- `ota_get_final_location(repo, file, port, is_ssl)`: the value returned, the
globals, the requests sent and the connections left in the script.  With
`MAX_302_JUMPS = 0` the function returns the uninitialised `retc`. -/
def ota_get_final_location (cfg : Config) (net : Net) (g : Globals) (repo file : List Nat)
    (conns : List Conn) : Outcome (Int × Globals × List Request × List Conn) :=
  match split_repo cfg g repo with
  | none => Outcome.fault
  | some g =>
    let loc :=
      if (cstr g.last_location).length > 0 then
        (strcat g.last_location [47]).bind (fun l => strcat l file)
      else strcat g.last_location file
    match loc with
    | none => Outcome.fault
    | some l =>
      if cfg.MAX_302_JUMPS = 0 then Outcome.fault
      else
        match fl_loop cfg net conns
            { i := 0, ret := 0, retc := 0, g := { g with last_location := l }, requests := [] } with
        | Outcome.ret (st, rest) =>
          Outcome.ret (if st.retc ≠ 0 then st.retc else st.ret, st.g, st.requests, rest)
        | Outcome.fault => Outcome.fault
        | Outcome.pending => Outcome.pending

/-! ## Ranged streaming fetch -/

/-- The string literal `"\ncontent-length:"`. -/
def lit_clength : List Nat :=
  [10, 99, 111, 110, 116, 101, 110, 116, 45, 108, 101, 110, 103, 116, 104, 58]

/-- The string literal `"\ncontent-range:"`. -/
def lit_crange : List Nat :=
  [10, 99, 111, 110, 116, 101, 110, 116, 45, 114, 97, 110, 103, 101, 58]

/-- The string literal `"bytes "`. -/
def lit_bytes : List Nat := [98, 121, 116, 101, 115, 32]

/-- The locals of `ota_get_file_ex` across its loops, the statics, the caller's
buffer and the trace of sink operations. -/
structure Dl where
  ret : Int
  retc : Int
  recv_bytes : Int
  length : Int
  clength : Int
  collected : Nat
  writespace : Int
  header : Bool
  g : Globals
  buffer : List Nat
  ops : List SinkOp
  requests : List Request
deriving DecidableEq, Repr

/-- The locals at the start of `ota_get_file_ex`. -/
def Dl.init (g : Globals) (buffer : List Nat) : Dl :=
  { ret := 0, retc := 0, recv_bytes := 0, length := 1, clength := 0, collected := 0,
    writespace := 0, header := false, g := g, buffer := buffer, ops := [], requests := [] }

/-- A step of the body of a loop: go on with the state, or `return code`. -/
inductive Step where
  | go (st : Dl)
  | stop (code : Int) (st : Dl)
deriving DecidableEq, Repr

/-- The flash branch of the sink (`if (sector) { ... }`) for the `ret` bytes
`data` at the head of `recv_buf`, without the final `collected += ret`. -/
def flash_sink (drv : Drv) (sector : Nat) (st : Dl) (data : List Nat) : Step :=
  let ret : Int := data.length
  let erased : Step :=
    if st.writespace < ret then
      let st1 := { st with ops := st.ops ++ [SinkOp.erase (sector + st.collected)] }
      if drv.eraseOk (sector + st.collected) then
        Step.go { st1 with writespace := st1.writespace + SPI_FLASH_SECTOR_SIZE }
      else Step.stop (-6) st1
    else Step.go st
  match erased with
  | Step.stop code st1 => Step.stop code st1
  | Step.go st1 =>
    if st1.collected ≠ 0 then
      let st2 := { st1 with ops := st1.ops ++ [SinkOp.write (sector + st1.collected) data] }
      if drv.writeOk (sector + st1.collected) data.length then
        Step.go { st2 with writespace := st2.writespace - ret }
      else Step.stop (-7) st2
    else
      let st2 := { st1 with
        g := { st1.g with file_first_byte := data.getD 0 0 }
        ops := st1.ops ++ [SinkOp.write (sector + 1) (data.drop 1)] }
      if drv.writeOk (sector + 1) (data.length - 1) then
        Step.go { st2 with writespace := st2.writespace - ret }
      else Step.stop (-7) st2

/-- The buffer branch of the sink. -/
def buffer_sink (bufsz : Int) (st : Dl) (data : List Nat) : Step :=
  if (data.length : Int) > bufsz then Step.stop (-8) st
  else
    Step.go { st with
      buffer := data ++ st.buffer.drop data.length
      ops := st.ops ++ [SinkOp.copy data] }

/-- The block `if (!header) { ... }` of `ota_get_file_ex` for the `ret` bytes
`data` of body at the head of `recv_buf`. -/
def dl_sink (drv : Drv) (sector : Nat) (bufsz : Int) (st : Dl) (data : List Nat) : Step :=
  let st := { st with recv_bytes := st.recv_bytes + data.length }
  let r := if sector ≠ 0 then flash_sink drv sector st data else buffer_sink bufsz st data
  match r with
  | Step.go st1 => Step.go { st1 with collected := st1.collected + data.length }
  | Step.stop code st1 => Step.stop code st1

/-- What the header block of `ota_get_file_ex` finds in the first packet of a
response. -/
inductive Hdr where
  /-- `length = 0; break;` (no `Content-Length`, or no `Content-Range` for a
  flash sink), with the value assigned to `clength` before, if any -/
  | stop (clength : Option Int)
  /-- the header is parsed: `length`, `clength` and the offset in the packet of
  the byte after the first `CRLFCRLF` -/
  | parsed (length clength : Int) (body : Nat)
  /-- a NULL pointer is dereferenced or a search leaves its string -/
  | fault
deriving DecidableEq, Repr

/-- The header block `if (header) { ... }` of `ota_get_file_ex` on the packet
`data` in the zeroed `recv_buf`; `is_buffer` tells whether `buffer` is
non-NULL. -/
def dl_header (is_buffer : Bool) (data : List Nat) : Hdr :=
  let s := cstr data
  match strstr_lc SIZE_BITS s lit_clength with
  | Search.outside _ => Hdr.fault
  | Search.null => Hdr.stop none
  | Search.found p =>
    match strchr 13 (s.drop p) with
    | none => Hdr.fault
    | some c =>
      let clength := atoi ((s.take (p + c)).drop (p + 16))
      let total : Option (Option Int) :=
        match strstr_lc SIZE_BITS s lit_crange with
        | Search.outside _ => none
        | Search.found r =>
          match strchr 13 (s.drop r) with
          | none => none
          | some c2 =>
            let line := s.take (r + c2)
            match strstr_lc SIZE_BITS line lit_bytes with
            | Search.found b =>
              match strstr_lc SIZE_BITS (line.drop (b + 6)) [47] with
              | Search.found k => some (some (atoi (line.drop (b + 6 + k + 1))))
              | _ => none
            | _ => none
        | Search.null => if is_buffer then some (some clength) else some none
      match total with
      | none => Hdr.fault
      | some none => Hdr.stop (some clength)
      | some (some length) =>
        match strstr_lc SIZE_BITS s CRLFCRLF with
        | Search.found e => Hdr.parsed length clength (e + 4)
        | _ => Hdr.fault

/-- Result of the `do ... while (recv_bytes < clength)` loop. -/
inductive Inner where
  /-- the loop is left; the reads and connections that remain -/
  | left (st : Dl) (recvs : List Recv) (sends : List Int) (conns : List Conn)
  /-- `return code` inside the loop -/
  | returned (code : Int) (st : Dl)
  | fault
  | pending
deriving DecidableEq, Repr

/-- The `do ... while (recv_bytes < clength)` loop of `ota_get_file_ex` on the
reads of the current connection. -/
def dl_recv_loop (cfg : Config) (net : Net) (drv : Drv) (sector : Nat) (is_buffer : Bool)
    (bufsz : Int) (sends : List Int) (conns : List Conn) : List Recv → Dl → Inner
  | [], _ => Inner.pending
  | r :: rs, st =>
    if r.ret > 0 then
      let parsed : Option (Dl ⊕ (Dl × List Nat)) :=
        if st.header then
          match dl_header is_buffer r.bytes with
          | Hdr.fault => none
          | Hdr.stop clength => some (Sum.inl { st with clength := clength.getD st.clength })
          | Hdr.parsed length clength body =>
            let st := { st with length := length, clength := clength }
            if r.ret - body ≠ 0 then
              some (Sum.inr ({ st with header := false }, r.bytes.drop body))
            else some (Sum.inr (st, r.bytes))
        else some (Sum.inr (st, r.bytes))
      match parsed with
      | none => Inner.fault
      | some (Sum.inl st) => Inner.left { st with ret := r.ret, length := 0 } rs sends conns
      | some (Sum.inr (st, data)) =>
        let st := { st with ret := data.length }
        if st.length > cfg.MAXFILESIZE then Inner.returned (-10) st
        else
          let sunk : Step := if !st.header then dl_sink drv sector bufsz st data else Step.go st
          match sunk with
          | Step.stop code st => Inner.returned code st
          | Step.go st =>
            let st := { st with header := false }
            if st.recv_bytes < st.clength then
              dl_recv_loop cfg net drv sector is_buffer bufsz sends conns rs st
            else Inner.left st rs sends conns
    else
      let ret := if r.ret ≠ 0 ∧ net.is_ssl then net.get_error r.ret else r.ret
      let st := { st with ret := ret }
      if ret = 0 ∧ (st.collected : Int) < st.length then
        match conns with
        | [] => Inner.pending
        | c :: cs => Inner.left { st with retc := c.retc } c.recvs c.sends cs
      else Inner.left st rs sends conns

/-- The head of the download request, `getlinestart`: the text that
`snprintf` leaves in the block of `getlinestart_len` bytes, with
`getlinestart_len = 38 + strlen(last_location) + strlen(last_host)` narrowed to
`uint16_t`.  `none` when `last_location` or `last_host` holds no NUL, or when
the block has no byte (nothing is written, and the block is read later). -/
def dl_getlinestart (cfg : Config) (g : Globals) : Option (List Nat) :=
  match cstr_of g.last_location, cstr_of g.last_host with
  | some location, some host =>
    let getlinestart_len := (38 + location.length + host.length) % 65536
    if getlinestart_len = 0 then none
    else
      some ((cfg.REQUESTHEAD ++ location ++ cfg.REQUESTTAIL ++ host ++ cfg.RANGE).take
        (getlinestart_len - 1))
  | _, _ => none

/-- The download request for the range from `collected`, as
`sprintf(recv_buf, "%s%d-%d%s", getlinestart, collected, collected + 4095, CRLFCRLF)`
builds it: `none` when the text and its terminator do not fit `recv_buf`. -/
def dl_request (cfg : Config) (getlinestart : List Nat) (collected : Nat) : Option Request :=
  let text := getlinestart ++ decimal collected ++ [45] ++ decimal (collected + 4095) ++ CRLFCRLF
  if text.length + 1 ≤ cfg.RECV_BUF_LEN then some text else none

/-- The `while (collected < length)` loop of `ota_get_file_ex`; `sends` and
`recvs` are the results left on the current connection.  `fuel` bounds the
iterations; each takes a write result or a connection from the script. -/
def dl_loop (cfg : Config) (net : Net) (drv : Drv) (sector : Nat) (is_buffer : Bool)
    (bufsz : Int) (getlinestart : List Nat) :
    Nat → List Int → List Recv → List Conn → Dl → Outcome (Int × Dl)
  | 0, _, _, _, _ => Outcome.pending
  | fuel + 1, sends, recvs, conns, st =>
    if (st.collected : Int) < st.length then
      match dl_request cfg getlinestart st.collected with
      | none => Outcome.fault
      | some request =>
        match sends with
        | [] => Outcome.pending
        | sent :: sends =>
          let st := { st with
            ret := sent
            recv_bytes := 0
            requests := st.requests ++ [request] }
          if sent > 0 then
            let st : Dl := { st with header := true }
            match dl_recv_loop cfg net drv sector is_buffer bufsz sends conns recvs st with
            | Inner.left st recvs sends conns =>
              dl_loop cfg net drv sector is_buffer bufsz getlinestart fuel sends recvs conns st
            | Inner.returned code st => Outcome.ret (code, st)
            | Inner.fault => Outcome.fault
            | Inner.pending => Outcome.pending
          else
            let ret := if net.is_ssl then net.get_error sent else sent
            let st := { st with ret := ret }
            if ret = -308 then
              match conns with
              | [] => Outcome.pending
              | c :: cs =>
                dl_loop cfg net drv sector is_buffer bufsz getlinestart fuel c.sends c.recvs cs
                  { st with retc := c.retc }
            else Outcome.ret (st.collected, st)
    else Outcome.ret (st.collected, st)

/-- Fuel that `dl_loop` cannot use up (`dl_loop_fuel`): the write results and
connections of the script. -/
def dl_fuel (sends : List Int) (conns : List Conn) : Nat :=
  sends.length + (conns.map (fun c => c.sends.length + 1)).sum + 1

/-- `ota_get_file_ex(repo, file, sector, buffer, bufsz, port, is_ssl)`: the
value returned and the final state (statics, caller's buffer, sink
operations).  `buffer` is `none` for NULL. -/
def ota_get_file_ex (cfg : Config) (net : Net) (drv : Drv) (g : Globals) (repo file : List Nat)
    (sector : Nat) (buffer : Option (List Nat)) (bufsz : Int) (conns : List Conn) :
    Outcome (Int × Dl) :=
  let st0 := Dl.init g (buffer.getD [])
  if sector = 0 ∧ buffer = none then Outcome.ret (-5, st0)
  else
    match ota_get_final_location cfg net g repo file conns with
    | Outcome.fault => Outcome.fault
    | Outcome.pending => Outcome.pending
    | Outcome.ret (r, g, _, conns) =>
      let st0 := { st0 with g := g }
      if r ≤ 0 then Outcome.ret (-1, st0)
      else
        match conns with
        | [] => Outcome.pending
        | c :: cs =>
          let st0 := { st0 with retc := c.retc }
          if c.retc = 0 then
            match dl_getlinestart cfg g with
            | none => Outcome.fault
            | some getlinestart =>
              dl_loop cfg net drv sector buffer.isSome bufsz getlinestart (dl_fuel c.sends cs)
                c.sends c.recvs cs st0
          else Outcome.ret (st0.collected, st0)

/-- `ota_get_file(repo, file, sector, port, is_ssl)`. -/
def ota_get_file (cfg : Config) (net : Net) (drv : Drv) (g : Globals) (repo file : List Nat)
    (sector : Nat) (conns : List Conn) : Outcome (Int × Dl) :=
  ota_get_file_ex cfg net drv g repo file sector none 0 conns

/-- The end of `ota_get_version`: from what `ota_get_file_ex` returned and left
in `version`, the pointer returned (`none` for NULL). -/
def ota_get_version_result (fetched : Int) (version : List Nat) : Option (List Nat) :=
  if fetched ≠ 0 then some version else none

/-- `ota_get_version(repo, version_file, port, is_ssl)`: the string returned,
`none` for NULL. -/
def ota_get_version (cfg : Config) (net : Net) (drv : Drv) (g : Globals)
    (repo version_file : List Nat) (conns : List Conn) : Outcome (Option (List Nat)) :=
  match ota_get_file_ex cfg net drv g repo version_file 0
      (some (zeroed (cfg.VERSIONFILESIZE + 1))) cfg.VERSIONFILESIZE conns with
  | Outcome.ret (fetched, st) => Outcome.ret (ota_get_version_result fetched st.buffer)
  | Outcome.fault => Outcome.fault
  | Outcome.pending => Outcome.pending

/-! ## Specification-side notions -/

/-- The characters of a byte string given as text. -/
def ascii (s : String) : List Nat := s.toList.map Char.toNat

/-- The host part of `repo`: the characters before the first `'/'`. -/
def host_part (repo : List Nat) : List Nat := repo.takeWhile (fun c => c != 47)

/-- The remainder of `repo`: the characters after the first `'/'`. -/
def location_part (repo : List Nat) : List Nat := (repo.dropWhile (fun c => c != 47)).drop 1

/-- The image that the verifier is meant to hash: `filesize` bytes of flash
from `start_sector`, byte 0 replaced by the cached first byte. -/
def image_bytes (fl : Flash) (g : Globals) (start_sector filesize : Nat) : List Nat :=
  (flash_bytes fl start_sector filesize).set 0 g.file_first_byte

/-- The flash sink run on a sequence of reads: every read that returns
`ret > 0` goes through the block `if (!header) { ... }`. -/
def sink_run (drv : Drv) (sector : Nat) : List (List Nat) → Dl → Step
  | [], st => Step.go st
  | d :: ds, st =>
    if (d.length : Int) > 0 then
      match dl_sink drv sector 0 st d with
      | Step.go st1 => sink_run drv sector ds st1
      | Step.stop code st1 => Step.stop code st1
    else sink_run drv sector ds st

/-- The state a step ends in. -/
def Step.state : Step → Dl
  | Step.go st => st
  | Step.stop _ st => st

/-- `search` occurs in `full` at index `k`, letter case ignored. -/
def lc_match_at (full search : List Nat) (k : Nat) : Prop :=
  ((full.drop k).take search.length).map tolower = search.map tolower

instance (full search : List Nat) (k : Nat) : Decidable (lc_match_at full search k) := by
  unfold lc_match_at; infer_instance

/-- A configuration for the concrete runs below. -/
def cfg0 : Config :=
  { HOST_LEN := 64, RECV_BUF_LEN := 1025, HEADER_BUFFER_LEN := 2000, MAX_302_JUMPS := 3,
    MAXFILESIZE := 1048576, BOOT0SECTOR := 8192, BOOT1SECTOR := 1056768,
    VERSIONFILESIZE := 9,
    REQUESTHEAD := [71, 69, 84, 32, 47],
    REQUESTTAIL := [32, 72, 84, 84, 80, 47, 49, 46, 49, 13, 10, 72, 111, 115, 116, 58, 32],
    RANGE := [13, 10, 82, 97, 110, 103, 101, 58, 32, 98, 121, 116, 101, 115, 61] }

/-- Plain TCP transport. -/
def net0 : Net := { is_ssl := false, get_error := fun r => r }

/-- TLS transport on which `wolfSSL_get_error` gives the positive code 2
(want-read) for every failed call. -/
def net_tls : Net := { is_ssl := true, get_error := fun _ => 2 }

/-- A connection on which the probe of `ota_get_final_location` is sent and the
read then fails (time-out): no response is collected. -/
def conn_probe_timeout : Conn := { retc := 0, sends := [60], recvs := [Recv.fail 1] }

/-- The value returned by a call, if it returned. -/
def Outcome.code : Outcome (Int × Dl) → Option Int
  | Outcome.ret (code, _) => some code
  | _ => none

/-- The sink operations of a call, if it returned. -/
def Outcome.ops : Outcome (Int × Dl) → Option (List SinkOp)
  | Outcome.ret (_, st) => some st.ops
  | _ => none

/-- A connection attempt that fails in DNS or connect. -/
def conn_refused : Conn := { retc := -2, sends := [], recvs := [] }

/-- A connection on which the probe of `ota_get_final_location` gets a `206`. -/
def conn_probe_ok : Conn :=
  { retc := 0, sends := [60],
    recvs := [Recv.data (ascii "HTTP/1.1 206 Partial Content\r\nContent-Length: 2\r\n\r\nab"),
              Recv.fail 0] }

/-- A slot whose first byte still is the erased `0xFF` while the image's
first byte `0xE9` is cached. -/
def flash_ff : Flash := fun _ => 255

/-- The statics after a download whose first byte was `0xE9`. -/
def globals_e9 : Globals := { Globals.init cfg0 with file_first_byte := 233 }

/-- The sectors that hold a byte written by the operation. -/
def SinkOp.written_sectors : SinkOp → List Nat
  | SinkOp.write a d =>
    if d.length = 0 then []
    else List.range' (a / SPI_FLASH_SECTOR_SIZE)
      ((a + d.length - 1) / SPI_FLASH_SECTOR_SIZE - a / SPI_FLASH_SECTOR_SIZE + 1)
  | _ => []

/-- Every byte written lies in a sector erased earlier in the trace (`erased`
lists the sectors erased before the trace). -/
def writes_erased : List Nat → List SinkOp → Bool
  | _, [] => true
  | erased, SinkOp.erase a :: ops => writes_erased ((a / SPI_FLASH_SECTOR_SIZE) :: erased) ops
  | erased, op :: ops =>
    op.written_sectors.all (fun s => decide (s ∈ erased)) && writes_erased erased ops

/-- No erase hits a sector that received a write earlier in the trace
(`written` lists the sectors written before the trace). -/
def erases_fresh : List Nat → List SinkOp → Bool
  | _, [] => true
  | written, SinkOp.erase a :: ops =>
    !decide (a / SPI_FLASH_SECTOR_SIZE ∈ written) && erases_fresh written ops
  | written, op :: ops => erases_fresh (op.written_sectors ++ written) ops

/-- Kind, address and length of an operation. -/
def SinkOp.shape : SinkOp → String × Nat × Nat
  | SinkOp.erase a => ("erase", a, SPI_FLASH_SECTOR_SIZE)
  | SinkOp.write a d => ("write", a, d.length)
  | SinkOp.copy d => ("copy", 0, d.length)

/-- Invariant of the flash sink for the first byte of the slot: no write
reaches down to `sector`, and once a body byte was taken the byte at `sector`
is erased. -/
def first_byte_inv (sector : Nat) (st : Dl) : Prop :=
  (∀ a d, SinkOp.write a d ∈ st.ops → sector < a) ∧
  (st.collected = 0 → st.writespace = 0 ∧ st.ops = []) ∧
  (0 < st.collected → ∀ fl : Flash, run_ops st.ops fl sector = 255)

/-- The total length that the header block of `ota_get_file_ex` reads from the
first packet of a response, when it reads one. -/
def declared_total (is_buffer : Bool) (pkt : List Nat) : Option Int :=
  match dl_header is_buffer pkt with
  | Hdr.parsed length _ _ => some length
  | _ => none

/-- A connection on which the first response to the download request carries
`Content-Length` and no `Content-Range`. -/
def conn_no_range : Conn :=
  { retc := 0, sends := [60],
    recvs := [Recv.data (ascii "HTTP/1.1 200 OK\r\nContent-Length: 5\r\n\r\nhello")] }

/-- A connection on which the first response to the download request carries
`Content-Range` with a total of 9000000 and no `Content-Length`. -/
def conn_range_only : Conn :=
  { retc := 0, sends := [60],
    recvs := [Recv.data
      (ascii "HTTP/1.1 206 Partial Content\r\nContent-Range: bytes 0-4095/9000000\r\n\r\nab")] }

/-- A first read that declares a total of 9000000 bytes, with two body bytes
behind the header. -/
def pkt_too_big : List Nat :=
  ascii ("HTTP/1.1 206 Partial Content\r\nContent-Length: 4096\r\n" ++
    "Content-Range: bytes 0-4095/9000000\r\n\r\nab")

/-- A connection on which the first response to the download request declares
a total of 9000000 bytes, with body bytes in the same packet. -/
def conn_too_big : Conn := { retc := 0, sends := [60], recvs := [Recv.data pkt_too_big] }

/-- The characters `location:`. -/
def lit_location_name : List Nat := [108, 111, 99, 97, 116, 105, 111, 110, 58]

/-- A collected response that is a `302` with a well-formed `Location` header
for host `H` and path `P`: the status line `HTTP/1.1 302` (any letter case)
first, the code not followed by a further digit; then, as the first line that
begins with `location:` in any letter case, that name, an optional single
space, `//H/P` and a CR.  `H` has no `'/'`, `H` and `P` have no CR, and both
are C strings (NUL-free). -/
def is_redirect (buffer H P : List Nat) : Prop :=
  ∃ v mid hdr sp rest,
    buffer = (v ++ [51, 48, 50] ++ mid) ++ ([10] ++ hdr ++ sp) ++
      ([47, 47] ++ (H ++ [47] ++ P)) ++ ([13] ++ rest) ∧
    v.map tolower = lit_http ∧
    (∀ c, mid.head? = some c → isdigit c = false) ∧
    hdr.map tolower = lit_location_name ∧
    (sp = [] ∨ sp = [32]) ∧
    (∀ k, k < (v ++ [51, 48, 50] ++ mid).length → ¬ lc_match_at buffer lit_location k) ∧
    47 ∉ H ∧ 13 ∉ H ∧ 13 ∉ P ∧ (∀ c ∈ H, c ≠ 0) ∧ (∀ c ∈ P, c ≠ 0)

/-- A connection on which connect, send and receive succeed and the server
answers with one packet, a `302` with a well-formed `Location` header whose
host and path fit `last_host` and `last_location`, and then closes or stays
silent. -/
def redirects (cfg : Config) (c : Conn) : Prop :=
  c.retc = 0 ∧ (∃ sent more, c.sends = sent :: more ∧ 0 < sent) ∧
  ∃ pkt n more H P, c.recvs = Recv.data pkt :: Recv.fail n :: more ∧
    is_redirect (cstr pkt) H P ∧ H.length < cfg.HOST_LEN ∧ P.length < cfg.RECV_BUF_LEN

/-- A `302` response with `Location: //b.example/v2`, 78 characters. -/
def pkt_302 : List Nat :=
  ascii
    "HTTP/1.1 302 Found\r\nServer: x\r\nLocation: //b.example/v2\r\nContent-Length: 0\r\n\r\n"

/-- A connection on which the probe gets `302` with `Location: //b.example/v2`. -/
def conn_302 : Conn :=
  { retc := 0, sends := [60], recvs := [Recv.data pkt_302, Recv.fail 0] }

/-- A connection on which the download request gets the whole file, 2 bytes. -/
def conn_file : Conn :=
  { retc := 0, sends := [60],
    recvs := [Recv.data (ascii
      "HTTP/1.1 206 Partial Content\r\nContent-Length: 2\r\nContent-Range: bytes 0-1/2\r\n\r\nab")] }

/-- The locals of `ota_get_final_location` in its first iteration, for the
concrete runs. -/
def fl0 : FL :=
  { i := 1, ret := 60, retc := 0, g := Globals.init cfg0, requests := [] }

/-! ## The writes of a download -/

/-- The `spiflash_write` calls of a trace, in order. -/
def writes_of (ops : List SinkOp) : List SinkOp :=
  ops.filter (fun op => match op with
    | SinkOp.write _ _ => true
    | _ => false)

/-- Address of a flash operation (0 for a buffer copy). -/
def SinkOp.addr : SinkOp → Nat
  | SinkOp.erase a => a
  | SinkOp.write a _ => a
  | SinkOp.copy _ => 0

/-- The writes for the chunks after the first: each chunk whole, at
`start + collected`. -/
def later_writes (start : Nat) : Nat → List (List Nat) → List SinkOp
  | _, [] => []
  | collected, d :: ds =>
    SinkOp.write (start + collected) d :: later_writes start (collected + d.length) ds

/-- The writes for a sequence of chunks: the first chunk without its first
byte at `start + 1`, each later chunk at `start + collected`. -/
def expected_writes (start : Nat) : List (List Nat) → List SinkOp
  | [] => []
  | d :: ds => SinkOp.write (start + 1) (d.drop 1) :: later_writes start d.length ds

/-- Writes at contiguous addresses from `a` on: each write starts where the
one before it ended. -/
def contiguous_from : Nat → List SinkOp → Prop
  | _, [] => True
  | a, SinkOp.write b d :: ops => b = a ∧ contiguous_from (a + d.length) ops
  | _, _ :: _ => False

/-! ## The first read of a response, in the words of the claims -/

/-- The download request for the range from `collected` fits `recv_buf`:
`last_location` and `last_host` hold C strings, `getlinestart_len` does not
wrap in `uint16_t`, and the at most 37 characters of `REQUESTHEAD`,
`REQUESTTAIL` and `RANGE` that `getlinestart` holds, the two strings, the two
numbers, the dash, `CRLFCRLF` and the terminating NUL are at most
`RECV_BUF_LEN` bytes. -/
def request_fits (cfg : Config) (g : Globals) (collected : Nat) : Prop :=
  0 ∈ g.last_location ∧ 0 ∈ g.last_host ∧
  38 + (cstr g.last_location).length + (cstr g.last_host).length < 65536 ∧
  37 + (cstr g.last_location).length + (cstr g.last_host).length +
    (decimal collected).length + (decimal (collected + 4095)).length + 6 ≤ cfg.RECV_BUF_LEN

instance (cfg : Config) (g : Globals) (collected : Nat) :
    Decidable (request_fits cfg g collected) := by
  unfold request_fits; infer_instance

/-- The string in the read `pkt` declares the total length `total` by a
`Content-Range` line: it holds a line that begins with `content-length:` (in
any letter case) with a CR behind it, the end of the header `CR LF CR LF`,
and, as its first line that begins with `content-range:`, that name, a text
`mid`, the word `bytes ` (the first `bytes ` of the whole string), a range
without `'/'`, a `'/'`, the digits `zs` and a CR; `total` is what `atoi` reads
from `zs`. -/
def declares_range_total (pkt : List Nat) (total : Int) : Prop :=
  (∃ p, lc_match_at (cstr pkt) lit_clength p ∧ 13 ∈ (cstr pkt).drop p) ∧
  (∃ e, lc_match_at (cstr pkt) CRLFCRLF e) ∧
  ∃ A nm mid bt rng zs rest,
    cstr pkt = A ++ nm ++ mid ++ bt ++ rng ++ [47] ++ zs ++ [13] ++ rest ∧
    nm.map tolower = lit_crange ∧
    (∀ k, k < A.length → ¬ lc_match_at (cstr pkt) lit_crange k) ∧
    bt.map tolower = lit_bytes ∧
    (∀ k, k < (A ++ nm ++ mid).length → ¬ lc_match_at (cstr pkt) lit_bytes k) ∧
    13 ∉ mid ∧ 13 ∉ rng ∧ 13 ∉ zs ∧ 47 ∉ rng ∧ total = atoi zs

/-- The string in the read `pkt` declares the total length `total` by its
`Content-Length` line alone: it holds no line that begins with
`content-range:`, it holds the end of the header `CR LF CR LF`, and its first
line that begins with `content-length:` (in any letter case) carries the text
`val` up to a CR; `total` is what `atoi` reads from `val`. -/
def declares_length_total (pkt : List Nat) (total : Int) : Prop :=
  (∀ k, ¬ lc_match_at (cstr pkt) lit_crange k) ∧
  (∃ e, lc_match_at (cstr pkt) CRLFCRLF e) ∧
  ∃ A nm val rest,
    cstr pkt = A ++ nm ++ val ++ [13] ++ rest ∧
    nm.map tolower = lit_clength ∧
    (∀ k, k < A.length → ¬ lc_match_at (cstr pkt) lit_clength k) ∧
    13 ∉ val ∧ total = atoi val

/-- The first read of a response declares the total length `total`: by a
`Content-Range` line, or, for a buffer sink, by `Content-Length` when there is
no `Content-Range` line. -/
def declares_total (is_buffer : Bool) (pkt : List Nat) (total : Int) : Prop :=
  declares_range_total pkt total ∨ (is_buffer = true ∧ declares_length_total pkt total)


/-! # Theorems -/

/-! ## Bootloader liaison -/

/-- C10: the rboot normalisation of `ota_init` is idempotent.  For every stored
configuration, a second `ota_init` leaves the stored record as the first call
left it and issues no `rboot_set_config`; after the first call `count = 2`,
`roms[0] = BOOT0SECTOR`, `roms[1] = BOOT1SECTOR`, `current_rom = 0` and every
other field (the further `roms` entries included) is as it was. -/
theorem ota_init_idempotent (cfg : Config) (r : Rboot) :
    (ota_init cfg (ota_init cfg r)).stored = (ota_init cfg r).stored ∧
    (ota_init cfg (ota_init cfg r)).set_calls = (ota_init cfg r).set_calls ∧
    (ota_init cfg r).stored.count = 2 ∧
    (ota_init cfg r).stored.roms 0 = cfg.BOOT0SECTOR ∧
    (ota_init cfg r).stored.roms 1 = cfg.BOOT1SECTOR ∧
    (ota_init cfg r).stored.current_rom = 0 ∧
    (∀ k, 2 ≤ k → (ota_init cfg r).stored.roms k = r.stored.roms k) ∧
    (ota_init cfg r).stored.other = r.stored.other := by
  have key : (ota_init cfg r).stored.count = 2 ∧
      (ota_init cfg r).stored.roms 0 = cfg.BOOT0SECTOR ∧
      (ota_init cfg r).stored.roms 1 = cfg.BOOT1SECTOR ∧
      (ota_init cfg r).stored.current_rom = 0 := by
    unfold ota_init
    by_cases h : r.stored.count ≠ 2 ∨ r.stored.roms 0 ≠ cfg.BOOT0SECTOR ∨
        r.stored.roms 1 ≠ cfg.BOOT1SECTOR ∨ r.stored.current_rom ≠ 0
    · simp only [h, if_true]
      simp [Function.update]
    · simp only [h, if_false]
      push_neg at h
      exact h
  obtain ⟨k1, k2, k3, k4⟩ := key
  have fix : ota_init cfg (ota_init cfg r) = ota_init cfg r := by
    generalize ota_init cfg r = r1 at k1 k2 k3 k4
    unfold ota_init
    simp [k1, k2, k3, k4]
  refine ⟨by rw [fix], by rw [fix], k1, k2, k3, k4, ?_, ?_⟩
  · intro k hk
    have h0 : k ≠ 0 := by omega
    have h1 : k ≠ 1 := by omega
    simp only [ota_init]
    split_ifs
    · simp [Function.update, h0, h1]
    · rfl
  · simp only [ota_init]
    split_ifs <;> rfl

/-! ## Signature verifier -/

set_option maxRecDepth 1000000 in
/-- C1 (the code at the failing input): for an image of one byte whose first
byte `0xE9` is cached while the slot still holds `0xFF` at `start_sector`, all
reads succeeding, `ota_verify_sign` passes the single block `[0xFF]` to the
SHA-384 update, whereas the image to be hashed is `[0xE9]`: the tail read after
the loop is hashed without the substitution of byte 0. -/
theorem ota_verify_sign_blocks_small_image :
    ota_verify_sign_blocks Drv.good flash_ff globals_e9 (zeroed 1024) 8192 1 = some [[255]] ∧
    image_bytes flash_ff globals_e9 8192 1 = [233] := by
  decide

/-! ## Version fetch -/

set_option maxRecDepth 1000000 in
/-- C4 (the code at failing inputs): when `ota_get_file_ex` returns `-1`
(location not resolved), `-8` (payload larger than the buffer) or `-10`
(declared length over `MAXFILESIZE`), `ota_get_version` returns a non-NULL
buffer; it returns NULL only for the outcome 0.  In the runs that reach the
download the three probes of the redirect resolution are sent over TLS and
time out with a positive `wolfSSL_get_error` code, so that no response is
collected and `ota_get_final_location` returns that code. -/
theorem ota_get_version_nonnull_on_error :
    ((ota_get_file_ex cfg0 net0 Drv.good (Globals.init cfg0) (ascii "a.example/v")
        (ascii "version") 0 (some (zeroed 10)) 9
        [conn_refused, conn_refused, conn_refused]).code = some (-1) ∧
      ota_get_version cfg0 net0 Drv.good (Globals.init cfg0) (ascii "a.example/v")
        (ascii "version") [conn_refused, conn_refused, conn_refused]
        = Outcome.ret (some (zeroed 10))) ∧
    ((ota_get_file_ex cfg0 net_tls Drv.good (Globals.init cfg0) (ascii "a.example/v")
        (ascii "version") 0 (some (zeroed 10)) 9
        [conn_probe_timeout, conn_probe_timeout, conn_probe_timeout,
         { retc := 0, sends := [60],
           recvs := [Recv.data
             (ascii "HTTP/1.1 200 OK\r\nContent-Length: 12\r\n\r\n1.2.3-beta.4")] }]).code
        = some (-8) ∧
      ota_get_version cfg0 net_tls Drv.good (Globals.init cfg0) (ascii "a.example/v")
        (ascii "version")
        [conn_probe_timeout, conn_probe_timeout, conn_probe_timeout,
         { retc := 0, sends := [60],
           recvs := [Recv.data
             (ascii "HTTP/1.1 200 OK\r\nContent-Length: 12\r\n\r\n1.2.3-beta.4")] }]
        = Outcome.ret (some (zeroed 10))) ∧
    ((ota_get_file_ex cfg0 net_tls Drv.good (Globals.init cfg0) (ascii "a.example/v")
        (ascii "version") 0 (some (zeroed 10)) 9
        [conn_probe_timeout, conn_probe_timeout, conn_probe_timeout,
         { retc := 0, sends := [60],
           recvs := [Recv.data
             (ascii "HTTP/1.1 200 OK\r\nContent-Length: 2000000\r\n\r\n1.2.3")] }]).code
        = some (-10) ∧
      ota_get_version cfg0 net_tls Drv.good (Globals.init cfg0) (ascii "a.example/v")
        (ascii "version")
        [conn_probe_timeout, conn_probe_timeout, conn_probe_timeout,
         { retc := 0, sends := [60],
           recvs := [Recv.data
             (ascii "HTTP/1.1 200 OK\r\nContent-Length: 2000000\r\n\r\n1.2.3")] }]
        = Outcome.ret (some (zeroed 10))) ∧
    ((ota_get_file_ex cfg0 net_tls Drv.good (Globals.init cfg0) (ascii "a.example/v")
        (ascii "version") 0 (some (zeroed 10)) 9
        [conn_probe_timeout, conn_probe_timeout, conn_probe_timeout, conn_refused]).code
        = some 0 ∧
      ota_get_version cfg0 net_tls Drv.good (Globals.init cfg0) (ascii "a.example/v")
        (ascii "version")
        [conn_probe_timeout, conn_probe_timeout, conn_probe_timeout, conn_refused]
        = Outcome.ret none) := by
  decide

theorem flash_bytes_length (fl : Flash) (a n : Nat) : (flash_bytes fl a n).length = n := by
  simp [flash_bytes]

theorem flash_bytes_add (fl : Flash) (a m n : Nat) :
    flash_bytes fl a (m + n) = flash_bytes fl a m ++ flash_bytes fl (a + m) n := by
  simp [flash_bytes, List.range_add, List.map_map, Function.comp, Nat.add_assoc]

theorem flash_bytes_drop_take (fl : Flash) (a b n N : Nat) (h : b + n ≤ N) :
    ((flash_bytes fl a N).drop b).take n = flash_bytes fl (a + b) n := by
  obtain ⟨r, rfl⟩ : ∃ r, N = b + (n + r) := ⟨N - b - n, by omega⟩
  rw [flash_bytes_add, flash_bytes_add, List.drop_left' (flash_bytes_length fl a b),
    List.take_left' (flash_bytes_length fl (a + b) n)]

/-- The block that the loop of `ota_verify_sign` hashes at offset `bytes` is
the corresponding block of the image. -/
theorem verify_block (fl : Flash) (g : Globals) (start N bytes : Nat) (h : bytes + 1024 ≤ N) :
    (if bytes = 0 then (flash_bytes fl (start + bytes) 1024).set 0 g.file_first_byte
      else flash_bytes fl (start + bytes) 1024) =
    ((image_bytes fl g start N).drop bytes).take 1024 := by
  unfold image_bytes
  by_cases hb : bytes = 0
  · subst hb
    simp only [if_true, List.drop_zero, List.set_take]
    rw [← flash_bytes_drop_take fl start 0 1024 N h]
    simp
  · simp only [hb, if_false]
    rw [List.drop_set_of_lt _ _ (Nat.pos_of_ne_zero hb), flash_bytes_drop_take fl start bytes 1024 N h]

/-- The loop of `ota_verify_sign` with all reads succeeding: it stops with
`bytes < filesize <= bytes + 1024`, having hashed the first `bytes` bytes of
the image in blocks of 1024. -/
theorem verify_loop_good (drv : Drv) (hr : ∀ a n, drv.readOk a n = true) (fl : Flash)
    (g : Globals) (start N : Nat) :
    ∀ fuel bytes buffer fed, bytes < N → N ≤ bytes + 1024 * fuel + 1024 →
      fed.flatten = (image_bytes fl g start N).take bytes → (∀ b ∈ fed, b.length ≤ 1024) →
      ∃ bytes1 buffer1 fed1,
        verify_loop drv fl g start (N : Int) fuel bytes buffer fed = (bytes1, buffer1, fed1) ∧
        bytes1 < N ∧ N ≤ bytes1 + 1024 ∧
        fed1.flatten = (image_bytes fl g start N).take bytes1 ∧
        (∀ b ∈ fed1, b.length ≤ 1024) ∧ (0 < bytes ∨ 1024 < N → 0 < bytes1) := by
  intro fuel
  induction fuel with
  | zero =>
    intro bytes buffer fed h1 h2 h3 h4
    refine ⟨bytes, buffer, fed, rfl, h1, by omega, h3, h4, ?_⟩
    intro h
    omega
  | succ f ih =>
    intro bytes buffer fed h1 h2 h3 h4
    by_cases hc : bytes + 1024 < N
    · have hc' : (bytes : Int) < (N : Int) - 1024 := by omega
      have hblock := verify_block fl g start N bytes (by omega)
      obtain ⟨b1, bu1, f1, e, p1, p2, p3, p4, p5⟩ := ih (bytes + 1024)
        (if bytes = 0 then (flash_bytes fl (start + bytes) 1024).set 0 g.file_first_byte
          else flash_bytes fl (start + bytes) 1024)
        (fed ++ [if bytes = 0 then (flash_bytes fl (start + bytes) 1024).set 0 g.file_first_byte
          else flash_bytes fl (start + bytes) 1024])
        hc (by omega)
        (by rw [List.flatten_concat, h3, hblock, List.take_add])
        (by
          intro b hb
          rcases List.mem_append.1 hb with hb | hb
          · exact h4 b hb
          · simp only [List.mem_singleton] at hb
            rw [hb, hblock]
            simp)
      refine ⟨b1, bu1, f1, ?_, p1, p2, p3, p4, fun _ => p5 (Or.inl (by omega))⟩
      rw [verify_loop]
      simp only [hc', if_true, hr]
      exact e
    · have hc' : ¬ ((bytes : Int) < (N : Int) - 1024) := by omega
      refine ⟨bytes, buffer, fed, ?_, h1, by omega, h3, h4, ?_⟩
      · rw [verify_loop]
        simp only [hc', if_false]
      · intro h
        omega

/-- For an image of more than 1024 bytes, all reads succeeding, the blocks
that `ota_verify_sign` hashes have at most 1024 bytes and concatenate to the
image with byte 0 replaced by the cached first byte. -/
theorem ota_verify_sign_blocks_large (drv : Drv) (hr : ∀ a n, drv.readOk a n = true)
    (fl : Flash) (g : Globals) (stack : List Nat) (start N : Nat) (hN : 1024 < N) :
    ∃ blocks, ota_verify_sign_blocks drv fl g stack start (N : Int) = some blocks ∧
      blocks.flatten = image_bytes fl g start N ∧ ∀ b ∈ blocks, b.length ≤ 1024 := by
  obtain ⟨b1, bu1, f1, e, p1, p2, p3, p4, p5⟩ := verify_loop_good drv hr fl g start N N 0 stack []
    (by omega) (by omega) (by simp) (by simp)
  have hpos : 0 < b1 := p5 (Or.inr hN)
  have hn1 : ¬ ((N : Int) - (b1 : Int) < 0 ∨ 1024 < (N : Int) - (b1 : Int)) := by omega
  have hn2 : ((N : Int) - (b1 : Int)).toNat = N - b1 := by omega
  have htail : flash_bytes fl (start + b1) (N - b1) = (image_bytes fl g start N).drop b1 := by
    unfold image_bytes
    rw [List.drop_set_of_lt _ _ hpos, ← flash_bytes_drop_take fl start b1 (N - b1) N (by omega)]
    apply List.take_of_length_le
    simp [flash_bytes_length]
  refine ⟨f1 ++ [flash_bytes fl (start + b1) (N - b1)], ?_, ?_, ?_⟩
  · unfold ota_verify_sign_blocks
    simp only [Int.toNat_ofNat, e, hn1, if_false, hr, if_true, hn2]
    rw [List.take_left' (flash_bytes_length fl _ _)]
  · rw [List.flatten_concat, p3, htail, List.take_append_drop]
  · intro b hb
    rcases List.mem_append.1 hb with hb | hb
    · exact p4 b hb
    · simp only [List.mem_singleton] at hb
      rw [hb, flash_bytes_length]
      omega

/-- Fuel beyond what the loop of `ota_verify_sign` can use does not change it:
with `filesize` iterations of fuel the loop always ends by its condition or by
`break`. -/
theorem verify_loop_fuel (drv : Drv) (fl : Flash) (g : Globals) (start : Nat) (filesize : Int) :
    ∀ (fuel bytes : Nat) (buffer : List Nat) (fed : List (List Nat)),
      filesize ≤ (bytes : Int) + 1024 * (fuel : Int) + 1024 →
      verify_loop drv fl g start filesize (fuel + 1) bytes buffer fed =
        verify_loop drv fl g start filesize fuel bytes buffer fed := by
  intro fuel
  induction fuel with
  | zero =>
    intro bytes buffer fed h
    have hc : ¬ ((bytes : Int) < filesize - 1024) := by
      simp at h
      omega
    simp [verify_loop, hc]
  | succ f ih =>
    intro bytes buffer fed h
    rw [verify_loop, verify_loop.eq_def drv fl g start filesize (f + 1) bytes]
    simp only
    split_ifs with h1 h2 h3
    · exact ih _ _ _ (by push_cast at h ⊢; omega)
    · exact ih _ _ _ (by push_cast at h ⊢; omega)
    · rfl
    · rfl

/-! ## C strings: basic facts -/

theorem strchr_none_iff (c : Nat) (s : List Nat) : strchr c s = none ↔ c ∉ s := by
  induction s with
  | nil => simp [strchr]
  | cons x xs ih =>
    by_cases h : x = c
    · simp [strchr, h]
    · have h2 : ¬ c = x := fun e => h e.symm
      simp [strchr, h, h2, ih]

theorem strchr_some_split (c : Nat) (s : List Nat) (k : Nat) (h : strchr c s = some k) :
    ∃ a b, s = a ++ c :: b ∧ c ∉ a ∧ a.length = k := by
  induction s generalizing k with
  | nil => simp [strchr] at h
  | cons x xs ih =>
    by_cases hx : x = c
    · simp [strchr, hx] at h
      exact ⟨[], xs, by simp [hx], by simp, by simpa using h⟩
    · simp only [strchr, hx, if_false, Option.map_eq_some'] at h
      obtain ⟨k1, hk1, rfl⟩ := h
      obtain ⟨a, b, rfl, hna, rfl⟩ := ih k1 hk1
      refine ⟨x :: a, b, by simp, ?_, by simp⟩
      simp only [List.mem_cons, not_or]
      exact ⟨fun e => hx e.symm, hna⟩

theorem strchr_append_of_not_mem (c : Nat) (a b : List Nat) (h : c ∉ a) :
    strchr c (a ++ c :: b) = some a.length := by
  induction a with
  | nil => simp [strchr]
  | cons x xs ih =>
    simp only [List.mem_cons, not_or] at h
    have hx : ¬ x = c := fun e => h.1 e.symm
    simp [strchr, hx, ih h.2]

theorem takeWhile_ne_append (c : Nat) (a b : List Nat) (h : c ∉ a) :
    (a ++ c :: b).takeWhile (fun x => x != c) = a := by
  induction a with
  | nil => simp
  | cons x xs ih =>
    simp only [List.mem_cons, not_or] at h
    have hx : ¬ x = c := fun e => h.1 e.symm
    have hb : (x != c) = true := by simp [bne_iff_ne, hx]
    simp [List.takeWhile_cons, hb, ih h.2]

theorem dropWhile_ne_append (c : Nat) (a b : List Nat) (h : c ∉ a) :
    (a ++ c :: b).dropWhile (fun x => x != c) = c :: b := by
  induction a with
  | nil => simp
  | cons x xs ih =>
    simp only [List.mem_cons, not_or] at h
    have hx : ¬ x = c := fun e => h.1 e.symm
    have hb : (x != c) = true := by simp [bne_iff_ne, hx]
    simp [List.dropWhile_cons, hb, ih h.2]

theorem takeWhile_ne_of_not_mem (c : Nat) (a : List Nat) (h : c ∉ a) :
    a.takeWhile (fun x => x != c) = a := by
  induction a with
  | nil => simp
  | cons x xs ih =>
    simp only [List.mem_cons, not_or] at h
    have hx : ¬ x = c := fun e => h.1 e.symm
    have hb : (x != c) = true := by simp [bne_iff_ne, hx]
    simp [List.takeWhile_cons, hb, ih h.2]

theorem dropWhile_ne_of_not_mem (c : Nat) (a : List Nat) (h : c ∉ a) :
    a.dropWhile (fun x => x != c) = [] := by
  induction a with
  | nil => simp
  | cons x xs ih =>
    simp only [List.mem_cons, not_or] at h
    have hx : ¬ x = c := fun e => h.1 e.symm
    have hb : (x != c) = true := by simp [bne_iff_ne, hx]
    simp [List.dropWhile_cons, hb, ih h.2]

/-- A NUL-free string followed by NULs reads back as itself. -/
theorem cstr_append_zeroed (a : List Nat) (n : Nat) (h : ∀ c ∈ a, c ≠ 0) :
    cstr (a ++ zeroed n) = a := by
  have h0 : (0 : Nat) ∉ a := fun hm => h 0 hm rfl
  cases n with
  | zero => simpa [cstr, zeroed] using takeWhile_ne_of_not_mem 0 a h0
  | succ m =>
    simpa [cstr, zeroed, List.replicate_succ] using
      takeWhile_ne_append 0 a (List.replicate m 0) h0

theorem cstr_nul_free (a : List Nat) (h : ∀ c ∈ a, c ≠ 0) : cstr a = a := by
  simpa [zeroed] using cstr_append_zeroed a 0 h

theorem cstr_append_nul (a t : List Nat) (h : ∀ c ∈ a, c ≠ 0) : cstr (a ++ 0 :: t) = a := by
  have h0 : (0 : Nat) ∉ a := fun hm => h 0 hm rfl
  simpa [cstr] using takeWhile_ne_append 0 a t h0

theorem zeroed_drop (n k : Nat) : (zeroed n).drop k = zeroed (n - k) := by
  simp [zeroed]

/-- `memcpy` of a NUL-free string into a zeroed array that has room for the
terminator leaves that string in the array. -/
theorem memcpy_zeroed (n : Nat) (src : List Nat) (k : Nat) (hk : k ≤ n) :
    memcpy (zeroed n) src k = some (src.take k ++ zeroed (n - k)) := by
  simp [memcpy, zeroed, hk]

/-! ## URL splitter -/

/-- The URL splitter on a string that fits: host and remainder are stored
NUL-terminated. -/
theorem split_fits (cfg : Config) (repo : List Nat) (hnul : ∀ c ∈ repo, c ≠ 0)
    (hh : (host_part repo).length < cfg.HOST_LEN)
    (hl : (location_part repo).length < cfg.RECV_BUF_LEN) :
    ∃ h l, ota_get_host cfg repo = some h ∧ ota_get_location cfg repo = some l ∧
      h.length = cfg.HOST_LEN ∧ l.length = cfg.RECV_BUF_LEN ∧
      cstr h = host_part repo ∧ cstr l = location_part repo := by
  cases hs : strchr 47 repo with
  | none =>
    have hnm : (47 : Nat) ∉ repo := (strchr_none_iff 47 repo).1 hs
    have e1 : host_part repo = repo := takeWhile_ne_of_not_mem 47 repo hnm
    have e2 : location_part repo = [] := by
      simp [location_part, dropWhile_ne_of_not_mem 47 repo hnm]
    rw [e1] at hh
    rw [e1, e2]
    obtain ⟨m, hm⟩ : ∃ m, cfg.RECV_BUF_LEN = m + 1 := ⟨cfg.RECV_BUF_LEN - 1, by omega⟩
    refine ⟨repo ++ zeroed (cfg.HOST_LEN - repo.length), 0 :: zeroed m, ?_, ?_, ?_, ?_, ?_, ?_⟩
    · simp [ota_get_host, hs, memcpy_zeroed cfg.HOST_LEN repo repo.length (by omega)]
    · simp [ota_get_location, hs, hm, zeroed, List.replicate_succ]
    · simp [zeroed]; omega
    · simp [zeroed, hm]
    · exact cstr_append_zeroed repo _ hnul
    · simp [cstr]
  | some k =>
    obtain ⟨a, b, rfl, hna, rfl⟩ := strchr_some_split 47 repo k hs
    have e1 : host_part (a ++ 47 :: b) = a := takeWhile_ne_append 47 a b hna
    have e2 : location_part (a ++ 47 :: b) = b := by
      simp [location_part, dropWhile_ne_append 47 a b hna]
    rw [e1] at hh
    rw [e2] at hl
    rw [e1, e2]
    have ha : ∀ c ∈ a, c ≠ 0 := fun c hc => hnul c (by simp [hc])
    have hb : ∀ c ∈ b, c ≠ 0 := fun c hc => hnul c (by simp [hc])
    refine ⟨a ++ zeroed (cfg.HOST_LEN - a.length), b ++ zeroed (cfg.RECV_BUF_LEN - b.length),
      ?_, ?_, ?_, ?_, ?_, ?_⟩
    · simp [ota_get_host, hs, memcpy_zeroed cfg.HOST_LEN _ a.length (by omega)]
    · simp [ota_get_location, hs, memcpy_zeroed cfg.RECV_BUF_LEN _ b.length (by omega)]
    · simp [zeroed]; omega
    · simp [zeroed]; omega
    · exact cstr_append_zeroed a _ ha
    · exact cstr_append_zeroed b _ hb

/-- C9: for every repo string (NUL-free) whose host part is shorter than
`HOST_LEN` and whose remainder is shorter than `RECV_BUF_LEN`, `ota_get_host`
leaves in `last_host` the characters before the first `'/'` (the whole string
if there is none) and `ota_get_location` leaves in `last_location` the
characters after the first `'/'` (none if there is no `'/'`); so `last_host`
has no `'/'` and, when `repo` has one, `last_host ++ "/" ++ last_location` is
`repo`. -/
theorem ota_get_host_location_split (cfg : Config) (repo : List Nat)
    (hnul : ∀ c ∈ repo, c ≠ 0)
    (hh : (host_part repo).length < cfg.HOST_LEN)
    (hl : (location_part repo).length < cfg.RECV_BUF_LEN) :
    ∃ h l, ota_get_host cfg repo = some h ∧ ota_get_location cfg repo = some l ∧
      cstr h = host_part repo ∧ cstr l = location_part repo ∧
      47 ∉ cstr h ∧
      (47 ∉ repo → cstr h = repo ∧ cstr l = []) ∧
      (47 ∈ repo → cstr h ++ [47] ++ cstr l = repo) := by
  obtain ⟨h, l, e1, e2, -, -, e3, e4⟩ := split_fits cfg repo hnul hh hl
  refine ⟨h, l, e1, e2, e3, e4, ?_, ?_, ?_⟩
  · rw [e3]
    intro hm
    have := List.mem_takeWhile_imp hm
    simp at this
  · intro hnm
    rw [e3, e4]
    exact ⟨takeWhile_ne_of_not_mem 47 repo hnm,
      by simp [location_part, dropWhile_ne_of_not_mem 47 repo hnm]⟩
  · intro hm
    rw [e3, e4]
    obtain ⟨k, hk⟩ : ∃ k, strchr 47 repo = some k := by
      cases hs : strchr 47 repo with
      | none => exact absurd hm ((strchr_none_iff 47 repo).1 hs)
      | some k => exact ⟨k, rfl⟩
    obtain ⟨a, b, rfl, hna, -⟩ := strchr_some_split 47 repo k hk
    simp [host_part, location_part, takeWhile_ne_append 47 a b hna,
      dropWhile_ne_append 47 a b hna]

set_option maxRecDepth 1000000 in
/-- C9 at `github.com/RavenSystem/haa`. -/
theorem ota_get_host_location_split_witness :
    ∃ h l, ota_get_host cfg0 (ascii "github.com/RavenSystem/haa") = some h ∧
      ota_get_location cfg0 (ascii "github.com/RavenSystem/haa") = some l ∧
      cstr h = host_part (ascii "github.com/RavenSystem/haa") ∧
      cstr l = location_part (ascii "github.com/RavenSystem/haa") ∧
      47 ∉ cstr h ∧
      (47 ∉ ascii "github.com/RavenSystem/haa" → cstr h = ascii "github.com/RavenSystem/haa"
        ∧ cstr l = []) ∧
      (47 ∈ ascii "github.com/RavenSystem/haa" →
        cstr h ++ [47] ++ cstr l = ascii "github.com/RavenSystem/haa") :=
  ota_get_host_location_split cfg0 (ascii "github.com/RavenSystem/haa")
    (by decide) (by decide) (by decide)

/-! ## Flash sink -/

theorem run_ops_append (ops : List SinkOp) (op : SinkOp) (fl : Flash) :
    run_ops (ops ++ [op]) fl = op.apply (run_ops ops fl) := by
  simp [run_ops, List.foldl_append]

theorem first_byte_inv_init (sector : Nat) (g : Globals) (buf : List Nat) :
    first_byte_inv sector (Dl.init g buf) := by
  refine ⟨?_, ?_, ?_⟩
  · intro a d h
    simp [Dl.init] at h
  · intro _
    simp [Dl.init]
  · intro h
    simp [Dl.init] at h

theorem apply_erase_same (a : Nat) (fl : Flash) : (SinkOp.erase a).apply fl a = 255 := by
  simp [SinkOp.apply]

theorem apply_erase_keeps_ff (a x : Nat) (fl : Flash) (h : fl x = 255) :
    (SinkOp.erase a).apply fl x = 255 := by
  simp only [SinkOp.apply]
  split_ifs <;> simp [h]

theorem apply_write_above (a x : Nat) (d : List Nat) (fl : Flash) (h : x < a) :
    (SinkOp.write a d).apply fl x = fl x := by
  simp only [SinkOp.apply]
  have : ¬ (a ≤ x ∧ x < a + d.length) := by omega
  simp [this]

/-- One non-empty read through the flash sink, all flash calls succeeding:
the three shapes of the step. -/
theorem dl_sink_good (drv : Drv) (he : ∀ a, drv.eraseOk a = true)
    (hw : ∀ a n, drv.writeOk a n = true) (sector : Nat) (hs : sector ≠ 0)
    (st : Dl) (d : List Nat) :
    dl_sink drv sector 0 st d = Step.go
      (if st.writespace < (d.length : Int) then
        if st.collected ≠ 0 then
          { st with
            recv_bytes := st.recv_bytes + d.length
            ops := st.ops ++ [SinkOp.erase (sector + st.collected)] ++
              [SinkOp.write (sector + st.collected) d]
            writespace := st.writespace + SPI_FLASH_SECTOR_SIZE - d.length
            collected := st.collected + d.length }
        else
          { st with
            recv_bytes := st.recv_bytes + d.length
            g := { st.g with file_first_byte := d.getD 0 0 }
            ops := st.ops ++ [SinkOp.erase (sector + st.collected)] ++
              [SinkOp.write (sector + 1) (d.drop 1)]
            writespace := st.writespace + SPI_FLASH_SECTOR_SIZE - d.length
            collected := st.collected + d.length }
      else
        if st.collected ≠ 0 then
          { st with
            recv_bytes := st.recv_bytes + d.length
            ops := st.ops ++ [SinkOp.write (sector + st.collected) d]
            writespace := st.writespace - d.length
            collected := st.collected + d.length }
        else
          { st with
            recv_bytes := st.recv_bytes + d.length
            g := { st.g with file_first_byte := d.getD 0 0 }
            ops := st.ops ++ [SinkOp.write (sector + 1) (d.drop 1)]
            writespace := st.writespace - d.length
            collected := st.collected + d.length }) := by
  by_cases h1 : st.writespace < (d.length : Int) <;> by_cases h2 : st.collected = 0 <;>
    simp [dl_sink, flash_sink, hs, he, hw, h1, h2]

/-- One non-empty read through the flash sink keeps the invariant and makes
`collected` positive. -/
theorem dl_sink_first_byte (drv : Drv) (he : ∀ a, drv.eraseOk a = true)
    (hw : ∀ a n, drv.writeOk a n = true) (sector : Nat) (hs : sector ≠ 0)
    (st : Dl) (d : List Nat) (hd : d ≠ []) (hinv : first_byte_inv sector st) :
    ∃ st1, dl_sink drv sector 0 st d = Step.go st1 ∧ first_byte_inv sector st1 ∧
      0 < st1.collected := by
  obtain ⟨h1, h2, h3⟩ := hinv
  have hlen : 0 < d.length := List.length_pos.2 hd
  refine ⟨_, dl_sink_good drv he hw sector hs st d, ?_, ?_⟩
  · by_cases hc : st.collected = 0
    · obtain ⟨hws, hops⟩ := h2 hc
      have hlt : st.writespace < (d.length : Int) := by rw [hws]; exact_mod_cast hlen
      simp only [hlt, if_true, hc, ne_eq, not_true_eq_false, if_false]
      refine ⟨?_, ?_, ?_⟩
      · intro a x hm
        simp [hops] at hm
        omega
      · intro h0
        exfalso
        simp at h0
        exact hd h0
      · intro _ fl
        simp only [hops, List.nil_append, Nat.add_zero]
        rw [run_ops_append, apply_write_above _ _ _ _ (by omega)]
        simp [run_ops, apply_erase_same]
    · have hpos : 0 < st.collected := Nat.pos_of_ne_zero hc
      have hff := h3 hpos
      by_cases hws : st.writespace < (d.length : Int)
      · simp only [hws, if_true, hc, ne_eq, not_false_eq_true]
        refine ⟨?_, ?_, ?_⟩
        · intro a x hm
          simp at hm
          rcases hm with hm | hm
          · exact h1 a x hm
          · omega
        · intro h0
          exfalso
          simp at h0
          omega
        · intro _ fl
          show run_ops ((st.ops ++ [SinkOp.erase (sector + st.collected)]) ++
            [SinkOp.write (sector + st.collected) d]) fl sector = 255
          rw [run_ops_append, apply_write_above _ _ _ _ (by omega), run_ops_append]
          exact apply_erase_keeps_ff _ _ _ (hff fl)
      · simp only [hws, if_false, hc, ne_eq, not_false_eq_true, if_true]
        refine ⟨?_, ?_, ?_⟩
        · intro a x hm
          simp at hm
          rcases hm with hm | hm
          · exact h1 a x hm
          · omega
        · intro h0
          exfalso
          simp at h0
          omega
        · intro _ fl
          show run_ops (st.ops ++ [SinkOp.write (sector + st.collected) d]) fl sector = 255
          rw [run_ops_append, apply_write_above _ _ _ _ (by omega)]
          exact hff fl
  · split_ifs <;> simp <;> omega

/-- The flash sink on a sequence of reads keeps the invariant; a non-empty
read makes `collected` positive. -/
theorem sink_run_first_byte (drv : Drv) (he : ∀ a, drv.eraseOk a = true)
    (hw : ∀ a n, drv.writeOk a n = true) (sector : Nat) (hs : sector ≠ 0)
    (chunks : List (List Nat)) (st : Dl) (hinv : first_byte_inv sector st) :
    ∃ st1, sink_run drv sector chunks st = Step.go st1 ∧ first_byte_inv sector st1 ∧
      ((0 < st.collected ∨ ∃ d ∈ chunks, d ≠ []) → 0 < st1.collected) := by
  induction chunks generalizing st with
  | nil => exact ⟨st, rfl, hinv, by simp⟩
  | cons d ds ih =>
    by_cases hd : d = []
    · subst hd
      obtain ⟨st1, e1, i1, p1⟩ := ih st hinv
      refine ⟨st1, by simpa [sink_run] using e1, i1, ?_⟩
      intro h
      apply p1
      rcases h with h | ⟨x, hx, hne⟩
      · exact Or.inl h
      · simp at hx
        rcases hx with rfl | hx
        · exact absurd rfl hne
        · exact Or.inr ⟨x, hx, hne⟩
    · obtain ⟨st1, e1, i1, p1⟩ := dl_sink_first_byte drv he hw sector hs st d hd hinv
      obtain ⟨st2, e2, i2, p2⟩ := ih st1 i1
      have hlen : (0 : Int) < (d.length : Int) := by exact_mod_cast List.length_pos.2 hd
      refine ⟨st2, ?_, i2, fun _ => p2 (Or.inl p1)⟩
      simp only [sink_run, gt_iff_lt, hlen, if_true, e1]
      exact e2

/-- C2: over the flash model of `SinkOp.apply` (an erase sets the sector that
contains its address to `0xFF`, a write changes only the bytes
`addr .. addr + len`), for every start sector of a flash sink (non-zero;
sector-aligned or not) and every sequence of reads with at least one non-empty
chunk, all flash calls succeeding: the sink returns no error, no write covers
the address `sector`, and the byte at `sector` is `0xFF` after the operations of
the download. -/
theorem first_byte_erased_after_download (drv : Drv) (he : ∀ a, drv.eraseOk a = true)
    (hw : ∀ a n, drv.writeOk a n = true) (sector : Nat) (hs : sector ≠ 0)
    (g : Globals) (buf : List Nat) (chunks : List (List Nat))
    (hne : ∃ d ∈ chunks, d ≠ []) (fl : Flash) :
    ∃ st, sink_run drv sector chunks (Dl.init g buf) = Step.go st ∧
      (∀ a d, SinkOp.write a d ∈ st.ops → ¬ (a ≤ sector ∧ sector < a + d.length)) ∧
      run_ops st.ops fl sector = 255 := by
  obtain ⟨st, e, ⟨h1, -, h3⟩, hp⟩ :=
    sink_run_first_byte drv he hw sector hs chunks _ (first_byte_inv_init sector g buf)
  refine ⟨st, e, ?_, h3 (hp (Or.inr hne)) fl⟩
  intro a d hm hcov
  have := h1 a d hm
  omega

set_option maxRecDepth 1000000 in
/-- C2 at two reads (an empty one, then three bytes) into the slot at `0x2000`. -/
theorem first_byte_erased_after_download_witness :
    ∃ st, sink_run Drv.good 8192 [[], [233, 1, 2]] (Dl.init (Globals.init cfg0) []) = Step.go st ∧
      (∀ a d, SinkOp.write a d ∈ st.ops → ¬ (a ≤ 8192 ∧ 8192 < a + d.length)) ∧
      run_ops st.ops flash_ff 8192 = 255 :=
  first_byte_erased_after_download Drv.good (fun _ => rfl) (fun _ _ => rfl) 8192 (by decide)
    (Globals.init cfg0) [] [[], [233, 1, 2]] ⟨[233, 1, 2], by decide, by decide⟩ flash_ff

set_option maxRecDepth 1000000 in
/-- C5 (the code at the failing input): nine reads of 500 bytes into the slot
at `0x2000`, all flash calls succeeding.  The ninth read finds
`writespace = 96 < 500` and erases at `sector + collected = 0x2FA0`, which is
the sector `0x2000 .. 0x2FFF` that holds the eight chunks written before; its
write `0x2FA0 .. 0x3193` then runs into the sector at `0x3000`, which was never
erased.  Both halves of the erase discipline fail on the trace. -/
theorem flash_sink_straddling_chunk :
    ((sink_run Drv.good 8192 (List.replicate 9 (List.replicate 500 1))
        (Dl.init (Globals.init cfg0) [])).state.ops).map SinkOp.shape =
      [("erase", 8192, 4096), ("write", 8193, 499), ("write", 8692, 500), ("write", 9192, 500),
       ("write", 9692, 500), ("write", 10192, 500), ("write", 10692, 500),
       ("write", 11192, 500), ("write", 11692, 500), ("erase", 12192, 4096),
       ("write", 12192, 500)] ∧
    writes_erased [] (sink_run Drv.good 8192 (List.replicate 9 (List.replicate 500 1))
        (Dl.init (Globals.init cfg0) [])).state.ops = false ∧
    erases_fresh [] (sink_run Drv.good 8192 (List.replicate 9 (List.replicate 500 1))
        (Dl.init (Globals.init cfg0) [])).state.ops = false := by
  decide

/-! ## `strstr_lc`: the first occurrence, letter case ignored -/

/-- The loop bound of `strstr_lc` is the difference modulo `2 ^ w`. -/
theorem size_sub_eq_mod (w a b : Nat) (ha : a < 2 ^ w) (hb : b < 2 ^ w) :
    size_sub w a b = (a + 2 ^ w - b) % 2 ^ w := by
  unfold size_sub
  split_ifs with h
  · have e : a + 2 ^ w - b = (a - b) + 2 ^ w := by omega
    rw [e, Nat.add_mod_right]
    exact (Nat.mod_eq_of_lt (by omega)).symm
  · have e : a + 2 ^ w - b = 2 ^ w - (b - a) := by omega
    rw [e]
    exact (Nat.mod_eq_of_lt (by omega)).symm

theorem charAt_of_lt (s : List Nat) (i : Nat) (h : i < s.length) : charAt s i = some s[i] := by
  simp [charAt, List.getElem?_append_left h, List.getElem?_eq_getElem h]

theorem getD_of_lt (s : List Nat) (i : Nat) (h : i < s.length) : s.getD i 0 = s[i] := by
  simp [List.getElem?_eq_getElem h]

/-- An occurrence lies inside the string. -/
theorem lc_match_at_le (full search : List Nat) (k : Nat) (hs : 0 < search.length)
    (h : lc_match_at full search k) : k + search.length ≤ full.length := by
  have := congrArg List.length h
  simp at this
  omega

/-- An occurrence starts with the first character of `search`. -/
theorem lc_match_at_head (full search : List Nat) (k : Nat) (hs : 0 < search.length)
    (hk : k < full.length) (h : lc_match_at full search k) :
    tolower full[k] = tolower search[0] := by
  unfold lc_match_at at h
  rw [List.drop_eq_getElem_cons hk] at h
  obtain ⟨c, cs, rfl⟩ : ∃ c cs, search = c :: cs := by
    cases search with
    | nil => simp at hs
    | cons c cs => exact ⟨c, cs, rfl⟩
  simp only [List.length_cons, List.take_succ_cons, List.map_cons, List.cons.injEq] at h
  simpa using h.1

/-- The inner loop of `strstr_lc`, entered at `j` inside the string, returns
`full_string + i` exactly when the rest of `search` matches. -/
theorem strstr_lc_inner_spec (full search : List Nat) (i : Nat)
    (hfit : i + search.length ≤ full.length) :
    ∀ n j, j + n = search.length → 0 < n →
      strstr_lc_inner full search i n j =
        if ((full.drop (i + j)).take n).map tolower = (search.drop j).map tolower
        then some (Search.found i) else none := by
  intro n
  induction n with
  | zero => intro j _ h; omega
  | succ m ih =>
    intro j hj _
    have hj1 : j < search.length := by omega
    have hij : i + j < full.length := by omega
    have e1 : full.drop (i + j) = full[i + j] :: full.drop (i + j + 1) :=
      List.drop_eq_getElem_cons hij
    have e2 : search.drop j = search[j] :: search.drop (j + 1) :=
      List.drop_eq_getElem_cons hj1
    rw [strstr_lc_inner, charAt_of_lt full (i + j) hij, getD_of_lt search j hj1, e1, e2]
    simp only [List.take_succ_cons, List.map_cons, List.cons.injEq]
    by_cases hc : tolower full[i + j] = tolower search[j]
    · simp only [hc, ne_eq, not_true_eq_false, if_false, true_and]
      by_cases hlast : j = search.length - 1
      · have hm : m = 0 := by omega
        subst hm
        have e3 : search.drop (j + 1) = [] := List.drop_eq_nil_of_le (by omega)
        simp [hlast, e3]
        omega
      · simp only [hlast, if_false]
        have := ih (j + 1) (by omega) (by omega)
        rw [this, Nat.add_assoc]
    · simp [hc]

/-- With `search` non-empty and no longer than `full_string`, the outer loop
entered at `i` returns the first occurrence at or after `i`, or NULL. -/
theorem strstr_lc_loop_spec (w : Nat) (full search : List Nat) (hs : 0 < search.length)
    (hle : search.length ≤ full.length) :
    ∀ fuel i, i ≤ full.length - search.length + 1 →
      full.length - search.length + 1 - i < fuel →
      (∀ k, i ≤ k → lc_match_at full search k →
          (∀ k1, i ≤ k1 → k1 < k → ¬ lc_match_at full search k1) →
          strstr_lc_loop w full search fuel i = Search.found k) ∧
      ((∀ k, i ≤ k → ¬ lc_match_at full search k) →
          strstr_lc_loop w full search fuel i = Search.null) := by
  have hbound : size_sub w full.length search.length = full.length - search.length := by
    simp [size_sub, hle]
  intro fuel
  induction fuel with
  | zero => intro i _ h; omega
  | succ f ih =>
    intro i hi hf
    rw [strstr_lc_loop, hbound]
    by_cases hin : i ≤ full.length - search.length
    · have hil : i < full.length := by omega
      have hfit : i + search.length ≤ full.length := by omega
      obtain ⟨ih1, ih2⟩ := ih (i + 1) (by omega) (by omega)
      simp only [hin, if_true, charAt_of_lt full i hil, getD_of_lt search 0 hs]
      have hinner := strstr_lc_inner_spec full search i hfit search.length 0 (by simp) hs
      simp only [Nat.add_zero, List.drop_zero] at hinner
      -- a miss at `i` sends both parts to the induction hypothesis
      have miss : ¬ lc_match_at full search i →
          (∀ k, i ≤ k → lc_match_at full search k →
            (∀ k1, i ≤ k1 → k1 < k → ¬ lc_match_at full search k1) →
            strstr_lc_loop w full search f (i + 1) = Search.found k) ∧
          ((∀ k, i ≤ k → ¬ lc_match_at full search k) →
            strstr_lc_loop w full search f (i + 1) = Search.null) := by
        intro hno
        refine ⟨?_, ?_⟩
        · intro k hk hm hfirst
          have hne : k ≠ i := fun e => hno (e ▸ hm)
          exact ih1 k (by omega) hm (fun k1 h1 h2 => hfirst k1 (by omega) h2)
        · intro hnone
          exact ih2 (fun k hk => hnone k (by omega))
      by_cases hc : tolower full[i] = tolower search[0]
      · simp only [hc, if_true, hinner]
        by_cases hm : lc_match_at full search i
        · have hm' := hm
          unfold lc_match_at at hm'
          simp only [hm', if_true]
          refine ⟨?_, ?_⟩
          · intro k hk _ hfirst
            by_cases hki : k = i
            · rw [hki]
            · exact absurd hm (hfirst i (le_refl i) (by omega))
          · intro hnone
            exact absurd hm (hnone i (le_refl i))
        · have hm' := hm
          unfold lc_match_at at hm'
          simp only [hm', if_false]
          exact miss hm
      · simp only [hc, if_false]
        exact miss (fun hm => hc (lc_match_at_head full search i hs hil hm))
    · simp only [hin, if_false]
      refine ⟨?_, ?_⟩
      · intro k hk hm _
        have := lc_match_at_le full search k hs hm
        omega
      · intro _
        trivial

/-- `strstr_lc` returns the first occurrence. -/
theorem strstr_lc_found (w : Nat) (full search : List Nat) (k : Nat) (hs : search ≠ [])
    (hm : lc_match_at full search k)
    (hfirst : ∀ k1, k1 < k → ¬ lc_match_at full search k1) :
    strstr_lc w full search = Search.found k := by
  have hs' : 0 < search.length := List.length_pos.2 hs
  have hle := lc_match_at_le full search k hs' hm
  exact (strstr_lc_loop_spec w full search hs' (by omega) (full.length + 2) 0 (by omega)
    (by omega)).1 k (Nat.zero_le k) hm (fun k1 _ h => hfirst k1 h)

/-- `strstr_lc` returns NULL when `search` fits `full_string` and does not
occur in it. -/
theorem strstr_lc_null (w : Nat) (full search : List Nat) (hs : search ≠ [])
    (hle : search.length ≤ full.length) (hno : ∀ k, ¬ lc_match_at full search k) :
    strstr_lc w full search = Search.null := by
  have hs' : 0 < search.length := List.length_pos.2 hs
  exact (strstr_lc_loop_spec w full search hs' hle (full.length + 2) 0 (by omega)
    (by omega)).2 (fun k _ => hno k)

/-- When `search` occurs in `full_string`, `strstr_lc` finds an occurrence at
or before it. -/
theorem strstr_lc_of_occurs (w : Nat) (full search : List Nat) (k : Nat) (hs : search ≠ [])
    (hm : lc_match_at full search k) :
    ∃ k0, k0 ≤ k ∧ lc_match_at full search k0 ∧ strstr_lc w full search = Search.found k0 := by
  classical
  have hex : ∃ n, lc_match_at full search n := ⟨k, hm⟩
  refine ⟨Nat.find hex, Nat.find_min' hex hm, Nat.find_spec hex, ?_⟩
  exact strstr_lc_found w full search _ hs (Nat.find_spec hex)
    (fun k1 h1 => Nat.find_min hex h1)

theorem lc_match_at_append (a m c s : List Nat) (h : m.map tolower = s.map tolower) :
    lc_match_at (a ++ m ++ c) s a.length := by
  have hl : m.length = s.length := by simpa using congrArg List.length h
  unfold lc_match_at
  rw [List.append_assoc, List.drop_left, ← hl, List.take_left, h]

theorem not_lc_match_at_of_char (full search : List Nat) (k c : Nat) (hs : 0 < search.length)
    (hc : full[k]? = some c) (h : tolower c ≠ tolower search[0]) :
    ¬ lc_match_at full search k := by
  obtain ⟨hk, e⟩ := List.getElem?_eq_some.1 hc
  intro hm
  apply h
  rw [← e]
  exact lc_match_at_head full search k hs hk hm

theorem charAt_some_le (s : List Nat) (i c : Nat) (h : charAt s i = some c) : i ≤ s.length := by
  unfold charAt at h
  have := (List.getElem?_eq_some.1 h).1
  simp at this
  omega

/-- Fuel beyond `strlen + 2` does not change the outer loop of `strstr_lc`: the
loop never runs out of it. -/
theorem strstr_lc_loop_fuel (w : Nat) (full search : List Nat) :
    ∀ fuel i, full.length + 2 ≤ i + fuel → i ≤ full.length + 1 →
      strstr_lc_loop w full search (fuel + 1) i = strstr_lc_loop w full search fuel i := by
  intro fuel
  induction fuel with
  | zero => intro i h1 h2; omega
  | succ f ih =>
    intro i h1 h2
    rw [strstr_lc_loop, strstr_lc_loop.eq_def w full search (f + 1) i]
    simp only
    split_ifs with hb
    · cases hc : charAt full i with
      | none => rfl
      | some c =>
        have hi := charAt_some_le full i c hc
        have hrec := ih (i + 1) (by omega) (by omega)
        simp only [hrec]
    · rfl

/-! ## Ranged streaming fetch: the first packet of a response -/

theorem mem_drop_of_le (s : List Nat) (c a b : Nat) (hab : a ≤ b) (h : c ∈ s.drop b) :
    c ∈ s.drop a := by
  have e : s.drop b = (s.drop a).drop (b - a) := by
    rw [List.drop_drop]
    congr 1
    omega
  rw [e] at h
  exact List.mem_of_mem_drop h

theorem strchr_some_of_mem (c : Nat) (s : List Nat) (h : c ∈ s) : ∃ k, strchr c s = some k := by
  cases hs : strchr c s with
  | none => exact absurd h ((strchr_none_iff c s).1 hs)
  | some k => exact ⟨k, rfl⟩

/-- A packet with a `Content-Length` line and no `Content-Range` line, for a
flash sink: the header block ends with `length = 0; break;`. -/
theorem dl_header_no_content_range (pkt : List Nat)
    (hcl : ∃ p, lc_match_at (cstr pkt) lit_clength p ∧ 13 ∈ (cstr pkt).drop p)
    (hcr : ∀ k, ¬ lc_match_at (cstr pkt) lit_crange k) :
    ∃ clength, dl_header false pkt = Hdr.stop (some clength) := by
  obtain ⟨p, hp, hcr13⟩ := hcl
  obtain ⟨k0, hk0, -, hfound⟩ :=
    strstr_lc_of_occurs SIZE_BITS (cstr pkt) lit_clength p (by simp [lit_clength]) hp
  obtain ⟨c, hc⟩ := strchr_some_of_mem 13 _ (mem_drop_of_le (cstr pkt) 13 k0 p hk0 hcr13)
  have hfit := lc_match_at_le (cstr pkt) lit_clength p (by simp [lit_clength]) hp
  have hnull : strstr_lc SIZE_BITS (cstr pkt) lit_crange = Search.null :=
    strstr_lc_null SIZE_BITS (cstr pkt) lit_crange (by simp [lit_crange])
      (by have e1 : lit_clength.length = 16 := rfl
          have e2 : lit_crange.length = 15 := rfl
          rw [e1] at hfit
          rw [e2]
          omega) hcr
  refine ⟨atoi (((cstr pkt).take (k0 + c)).drop (k0 + 16)), ?_⟩
  simp only [dl_header, hfound, hc, hnull]
  rfl

/-- The start of the download in `ota_get_file_ex` once the location is
resolved and the connection is up. -/
theorem ota_get_file_ex_download (cfg : Config) (net : Net) (drv : Drv) (g : Globals)
    (repo file : List Nat) (sector : Nat) (buffer : Option (List Nat)) (bufsz : Int)
    (conns : List Conn) (r : Int) (g1 : Globals) (reqs : List Request) (c : Conn)
    (cs : List Conn) (gls : List Nat) (hsink : ¬ (sector = 0 ∧ buffer = none))
    (hres : ota_get_final_location cfg net g repo file conns = Outcome.ret (r, g1, reqs, c :: cs))
    (hr : 0 < r) (hc : c.retc = 0) (hg : dl_getlinestart cfg g1 = some gls) :
    ota_get_file_ex cfg net drv g repo file sector buffer bufsz conns =
      dl_loop cfg net drv sector buffer.isSome bufsz gls (dl_fuel c.sends cs) c.sends c.recvs cs
        { Dl.init g (buffer.getD []) with g := g1, retc := c.retc } := by
  have hr' : ¬ r ≤ 0 := by omega
  simp only [ota_get_file_ex, hsink, if_false, hres, hr', hc, hg]
  simp

/-- A request whose first packet makes the header block stop
(`length = 0; break;`): the loop of `ota_get_file_ex` ends and the call returns
`collected`, with no sink operation added. -/
theorem dl_loop_header_stop (cfg : Config) (net : Net) (drv : Drv) (sector : Nat)
    (is_buffer : Bool) (bufsz : Int) (fuel : Nat) (sent : Int) (sends : List Int)
    (pkt : List Nat) (rs : List Recv) (conns : List Conn) (st : Dl) (clength : Option Int)
    (gls : List Nat) (req : Request)
    (hgo : (st.collected : Int) < st.length) (hsent : 0 < sent) (hpkt : pkt ≠ [])
    (hreq : dl_request cfg gls st.collected = some req)
    (hh : dl_header is_buffer pkt = Hdr.stop clength) :
    (dl_loop cfg net drv sector is_buffer bufsz gls (fuel + 2) (sent :: sends)
        (Recv.data pkt :: rs) conns st).code = some (st.collected : Int) ∧
    (dl_loop cfg net drv sector is_buffer bufsz gls (fuel + 2) (sent :: sends)
        (Recv.data pkt :: rs) conns st).ops = some st.ops := by
  have hlen : (0 : Int) < (pkt.length : Int) := by exact_mod_cast List.length_pos.2 hpkt
  have hneg : ¬ ((st.collected : Int) < 0) := by omega
  constructor <;>
    simp [dl_loop, hgo, hsent, dl_recv_loop, Recv.ret, hlen, Recv.bytes, hh, Outcome.code,
      Outcome.ops, hneg, hreq]

/-- A request whose first packet declares a total length over `MAXFILESIZE`:
`return -10` before the sink is reached. -/
theorem dl_loop_too_big (cfg : Config) (net : Net) (drv : Drv) (sector : Nat)
    (is_buffer : Bool) (bufsz : Int) (fuel : Nat) (sent : Int) (sends : List Int)
    (pkt : List Nat) (rs : List Recv) (conns : List Conn) (st : Dl) (total : Int)
    (gls : List Nat) (req : Request)
    (hgo : (st.collected : Int) < st.length) (hsent : 0 < sent) (hpkt : pkt ≠ [])
    (hreq : dl_request cfg gls st.collected = some req)
    (hh : declared_total is_buffer pkt = some total) (hbig : total > cfg.MAXFILESIZE) :
    (dl_loop cfg net drv sector is_buffer bufsz gls (fuel + 1) (sent :: sends)
        (Recv.data pkt :: rs) conns st).code = some (-10) ∧
    (dl_loop cfg net drv sector is_buffer bufsz gls (fuel + 1) (sent :: sends)
        (Recv.data pkt :: rs) conns st).ops = some st.ops := by
  have hlen : (0 : Int) < (pkt.length : Int) := by exact_mod_cast List.length_pos.2 hpkt
  unfold declared_total at hh
  cases hd : dl_header is_buffer pkt with
  | stop c => simp [hd] at hh
  | fault => simp [hd] at hh
  | parsed length clength body =>
    simp only [hd, Option.some.injEq] at hh
    subst hh
    by_cases hleft : (pkt.length : Int) - (body : Int) = 0 <;>
      constructor <;>
      simp [dl_loop, hgo, hsent, dl_recv_loop, Recv.ret, hlen, Recv.bytes, hd, hleft, hbig,
        Outcome.code, Outcome.ops, hreq]

theorem lc_match_at_of_take (l s : List Nat) (n k : Nat) (hs : 0 < s.length)
    (h : lc_match_at (l.take n) s k) : lc_match_at l s k := by
  have hle := lc_match_at_le (l.take n) s k hs h
  have hn : k + s.length ≤ n := by
    have : (l.take n).length ≤ n := by simp
    omega
  unfold lc_match_at at h ⊢
  rw [← h, List.drop_take, List.take_take]
  congr 2
  omega

theorem tolower_eq_slash (c : Nat) (h : tolower c = 47) : c = 47 := by
  unfold tolower at h
  split_ifs at h <;> omega

theorem not_mem_of_map_tolower (x lit : List Nat) (c : Nat) (h : x.map tolower = lit)
    (hc : tolower c ∉ lit) : c ∉ x := by
  intro hm
  apply hc
  rw [← h]
  exact List.mem_map_of_mem tolower hm

/-- The header block on a packet with a `Content-Length` line, a first
`Content-Range` line of the form `bytes <range>/<Z>` that holds the first
`bytes ` of the packet, and the end of the header: the total length read is
what `atoi` reads from `<Z>`. -/
theorem declared_total_content_range (is_buffer : Bool) (pkt A nm mid bt rng zs rest : List Nat)
    (hs : cstr pkt = A ++ nm ++ mid ++ bt ++ rng ++ [47] ++ zs ++ [13] ++ rest)
    (hnm : nm.map tolower = lit_crange)
    (hfirst : ∀ k, k < A.length → ¬ lc_match_at (cstr pkt) lit_crange k)
    (hbt : bt.map tolower = lit_bytes)
    (hfirstb : ∀ k, k < (A ++ nm ++ mid).length → ¬ lc_match_at (cstr pkt) lit_bytes k)
    (hmid : 13 ∉ mid) (hrng : 13 ∉ rng) (hzs : 13 ∉ zs) (hrng47 : 47 ∉ rng)
    (hcl : ∃ p, lc_match_at (cstr pkt) lit_clength p ∧ 13 ∈ (cstr pkt).drop p)
    (hend : ∃ e, lc_match_at (cstr pkt) CRLFCRLF e) :
    declared_total is_buffer pkt = some (atoi zs) := by
  obtain ⟨p, hp, hcr13⟩ := hcl
  obtain ⟨k0, hk0, -, hfound⟩ :=
    strstr_lc_of_occurs SIZE_BITS (cstr pkt) lit_clength p (by simp [lit_clength]) hp
  obtain ⟨c, hc⟩ := strchr_some_of_mem 13 _ (mem_drop_of_le (cstr pkt) 13 k0 p hk0 hcr13)
  obtain ⟨e, he⟩ := hend
  obtain ⟨e0, -, -, hcrlf⟩ :=
    strstr_lc_of_occurs SIZE_BITS (cstr pkt) CRLFCRLF e (by simp [CRLFCRLF]) he
  obtain ⟨s, hsdef⟩ : ∃ s, s = cstr pkt := ⟨_, rfl⟩
  rw [← hsdef] at hs hfirst hfirstb hfound hc hcrlf
  obtain ⟨line, hline⟩ : ∃ line, line = nm ++ mid ++ bt ++ rng ++ [47] ++ zs := ⟨_, rfl⟩
  have e1 : s = A ++ (line ++ 13 :: rest) := by
    rw [hs, hline]
    simp only [List.append_assoc, List.singleton_append]
  have hn13 : (13 : Nat) ∉ line := by
    rw [hline]
    simp only [List.mem_append, List.mem_singleton, not_or]
    refine ⟨⟨⟨⟨⟨?_, hmid⟩, ?_⟩, hrng⟩, by decide⟩, hzs⟩
    · exact not_mem_of_map_tolower nm lit_crange 13 hnm (by decide)
    · exact not_mem_of_map_tolower bt lit_bytes 13 hbt (by decide)
  have s1 : strstr_lc SIZE_BITS s lit_crange = Search.found A.length := by
    apply strstr_lc_found SIZE_BITS _ _ _ (by simp [lit_crange])
    · have := lc_match_at_append A nm (mid ++ bt ++ rng ++ [47] ++ zs ++ [13] ++ rest)
        lit_crange (by rw [hnm]; rfl)
      have e0 : s = A ++ nm ++ (mid ++ bt ++ rng ++ [47] ++ zs ++ [13] ++ rest) := by
        rw [hs]
        simp only [List.append_assoc]
      rw [e0]
      exact this
    · exact hfirst
  have s2 : strchr 13 (s.drop A.length) = some line.length := by
    rw [e1, List.drop_left, strchr_append_of_not_mem 13 _ rest hn13]
  have s3 : s.take (A.length + line.length) = A ++ line := by
    rw [e1, ← List.append_assoc]
    exact List.take_left' (by simp)
  have s4 : strstr_lc SIZE_BITS (A ++ line) lit_bytes = Search.found (A ++ nm ++ mid).length := by
    apply strstr_lc_found SIZE_BITS _ _ _ (by simp [lit_bytes])
    · have := lc_match_at_append (A ++ nm ++ mid) bt (rng ++ [47] ++ zs) lit_bytes
        (by rw [hbt]; rfl)
      have e0 : A ++ line = A ++ nm ++ mid ++ bt ++ (rng ++ [47] ++ zs) := by
        rw [hline]
        simp only [List.append_assoc]
      rw [e0]
      exact this
    · intro k hk hm
      rw [← s3] at hm
      exact hfirstb k hk (lc_match_at_of_take s lit_bytes _ k (by simp [lit_bytes]) hm)
  have hbl : bt.length = 6 := by simpa [lit_bytes] using congrArg List.length hbt
  have s5 : (A ++ line).drop ((A ++ nm ++ mid).length + 6) = rng ++ [47] ++ zs := by
    have e0 : A ++ line = (A ++ nm ++ mid ++ bt) ++ (rng ++ [47] ++ zs) := by
      rw [hline]
      simp only [List.append_assoc]
    rw [e0]
    exact List.drop_left' (by simp [hbl]; omega)
  have s6 : strstr_lc SIZE_BITS (rng ++ [47] ++ zs) [47] = Search.found rng.length := by
    apply strstr_lc_found SIZE_BITS _ _ _ (by simp)
    · exact lc_match_at_append rng [47] zs [47] rfl
    · intro k hk
      have e : (rng ++ [47] ++ zs)[k]? = some rng[k] := by
        rw [List.append_assoc, List.getElem?_append_left hk, List.getElem?_eq_getElem hk]
      apply not_lc_match_at_of_char _ _ k rng[k] (by simp) e
      intro h47
      apply hrng47
      have : rng[k] = 47 := tolower_eq_slash _ (by simpa [tolower] using h47)
      rw [← this]
      exact List.getElem_mem _
  have s7 : (A ++ line).drop ((A ++ nm ++ mid).length + 6 + rng.length + 1) = zs := by
    have e0 : A ++ line = (A ++ nm ++ mid ++ bt ++ rng ++ [47]) ++ zs := by
      rw [hline]
      simp only [List.append_assoc]
    rw [e0]
    exact List.drop_left' (by simp [hbl]; omega)
  unfold declared_total dl_header
  simp only [← hsdef, hfound, hc, s1, s2, s3, s4, s5, s6, s7, hcrlf]

/-- The header block of a buffer sink on a packet with a first
`Content-Length` line, no `Content-Range` line, and the end of the header: the
total length read is what `atoi` reads from the value of `Content-Length`. -/
theorem declared_total_content_length (pkt A nm val rest : List Nat)
    (hs : cstr pkt = A ++ nm ++ val ++ [13] ++ rest)
    (hnm : nm.map tolower = lit_clength)
    (hfirst : ∀ k, k < A.length → ¬ lc_match_at (cstr pkt) lit_clength k)
    (hval : 13 ∉ val)
    (hnocr : ∀ k, ¬ lc_match_at (cstr pkt) lit_crange k)
    (hend : ∃ e, lc_match_at (cstr pkt) CRLFCRLF e) :
    declared_total true pkt = some (atoi val) := by
  obtain ⟨e, he⟩ := hend
  obtain ⟨e0, -, -, hcrlf⟩ :=
    strstr_lc_of_occurs SIZE_BITS (cstr pkt) CRLFCRLF e (by simp [CRLFCRLF]) he
  obtain ⟨s, hsdef⟩ : ∃ s, s = cstr pkt := ⟨_, rfl⟩
  rw [← hsdef] at hs hfirst hnocr hcrlf
  have hnl : nm.length = 16 := by simpa [lit_clength] using congrArg List.length hnm
  have e1 : s = A ++ ((nm ++ val) ++ 13 :: rest) := by
    rw [hs]
    simp only [List.append_assoc, List.singleton_append]
  have hn13 : (13 : Nat) ∉ nm ++ val := by
    simp only [List.mem_append, not_or]
    exact ⟨not_mem_of_map_tolower nm lit_clength 13 hnm (by decide), hval⟩
  have s1 : strstr_lc SIZE_BITS s lit_clength = Search.found A.length := by
    apply strstr_lc_found SIZE_BITS _ _ _ (by simp [lit_clength])
    · have := lc_match_at_append A nm (val ++ [13] ++ rest) lit_clength (by rw [hnm]; rfl)
      have e0 : s = A ++ nm ++ (val ++ [13] ++ rest) := by
        rw [hs]
        simp only [List.append_assoc]
      rw [e0]
      exact this
    · exact hfirst
  have s2 : strchr 13 (s.drop A.length) = some (nm ++ val).length := by
    rw [e1, List.drop_left, strchr_append_of_not_mem 13 _ rest hn13]
  have s3 : (s.take (A.length + (nm ++ val).length)).drop (A.length + 16) = val := by
    have e2 : s.take (A.length + (nm ++ val).length) = A ++ (nm ++ val) := by
      rw [e1, ← List.append_assoc]
      exact List.take_left' (by simp)
    rw [e2, ← List.append_assoc]
    exact List.drop_left' (by rw [List.length_append, hnl])
  have s4 : strstr_lc SIZE_BITS s lit_crange = Search.null := by
    apply strstr_lc_null SIZE_BITS s lit_crange (by simp [lit_crange]) _ hnocr
    rw [e1]
    simp [hnl, lit_crange]
    omega
  unfold declared_total dl_header
  simp only [← hsdef, s1, s2, s3, s4, hcrlf, if_true]

theorem dl_fuel_reconnect (sends : List Int) (c : Conn) (cs : List Conn) :
    dl_fuel c.sends cs ≤ dl_fuel sends (c :: cs) := by
  simp [dl_fuel]
  omega

/-- The receive loop of `ota_get_file_ex` does not add to the write results
and connections left in the script. -/
theorem dl_recv_loop_fuel (cfg : Config) (net : Net) (drv : Drv) (sector : Nat)
    (is_buffer : Bool) (bufsz : Int) (sends : List Int) (conns : List Conn) :
    ∀ (recvs : List Recv) (st st1 : Dl) (recvs1 : List Recv) (sends1 : List Int)
      (conns1 : List Conn),
      dl_recv_loop cfg net drv sector is_buffer bufsz sends conns recvs st =
        Inner.left st1 recvs1 sends1 conns1 →
      dl_fuel sends1 conns1 ≤ dl_fuel sends conns := by
  intro recvs
  induction recvs with
  | nil =>
    intro st st1 recvs1 sends1 conns1 h
    simp [dl_recv_loop] at h
  | cons r rs ih =>
    intro st st1 recvs1 sends1 conns1 h
    rw [dl_recv_loop] at h
    simp only at h
    repeat' split at h
    all_goals first
      | exact ih _ _ _ _ _ h
      | (simp only [Inner.left.injEq] at h
         obtain ⟨-, -, rfl, rfl⟩ := h
         first
           | exact le_refl _
           | exact dl_fuel_reconnect _ _ _)
      | simp at h

theorem dl_fuel_pos (sends : List Int) (conns : List Conn) : 0 < dl_fuel sends conns := by
  simp [dl_fuel]

theorem dl_fuel_send (sent : Int) (sends : List Int) (conns : List Conn) :
    dl_fuel (sent :: sends) conns = dl_fuel sends conns + 1 := by
  simp [dl_fuel]
  omega

/-- Fuel beyond `dl_fuel` does not change the loop of `ota_get_file_ex`: with
`dl_fuel` the loop never runs out of it. -/
theorem dl_loop_fuel (cfg : Config) (net : Net) (drv : Drv) (sector : Nat) (is_buffer : Bool)
    (bufsz : Int) (gls : List Nat) :
    ∀ (fuel : Nat) (sends : List Int) (recvs : List Recv) (conns : List Conn) (st : Dl),
      dl_fuel sends conns ≤ fuel →
      dl_loop cfg net drv sector is_buffer bufsz gls (fuel + 1) sends recvs conns st =
        dl_loop cfg net drv sector is_buffer bufsz gls fuel sends recvs conns st := by
  intro fuel
  induction fuel with
  | zero =>
    intro sends recvs conns st h
    have := dl_fuel_pos sends conns
    omega
  | succ f ih =>
    intro sends recvs conns st h
    rw [dl_loop.eq_def cfg net drv sector is_buffer bufsz gls (f + 1 + 1) sends recvs conns st,
      dl_loop.eq_def cfg net drv sector is_buffer bufsz gls (f + 1) sends recvs conns st]
    simp only
    by_cases h1 : (st.collected : Int) < st.length
    · simp only [h1, if_true]
      cases hrq : dl_request cfg gls st.collected with
      | none => rfl
      | some request =>
      simp only
      cases sends with
      | nil => rfl
      | cons sent sends1 =>
        rw [dl_fuel_send] at h
        simp only
        by_cases h2 : sent > 0
        · simp only [h2, if_true]
          generalize hin : dl_recv_loop cfg net drv sector is_buffer bufsz sends1 conns recvs _
            = res
          cases res with
          | left st1 recvs1 sends2 conns1 =>
            have := dl_recv_loop_fuel cfg net drv sector is_buffer bufsz sends1 conns recvs _ _ _
              _ _ hin
            simp only
            exact ih _ _ _ _ (by omega)
          | returned code st1 => rfl
          | fault => rfl
          | pending => rfl
        · simp only [h2, if_false]
          by_cases h3 : (if net.is_ssl = true then net.get_error sent else sent) = -308
          · simp only [h3, if_true]
            cases conns with
            | nil => rfl
            | cons c cs =>
              have := dl_fuel_reconnect sends1 c cs
              simp only
              exact ih _ _ _ _ (by omega)
          · simp only [h3, if_false]
    · simp only [h1, if_false]

/-! ## Ranged streaming fetch: the request -/

theorem cstr_of_mem (buf : List Nat) (h : 0 ∈ buf) : cstr_of buf = some (cstr buf) := by
  simp [cstr_of, h]

theorem dl_request_some (cfg : Config) (gls : List Nat) (collected : Nat)
    (h : gls.length + (decimal collected).length + (decimal (collected + 4095)).length + 6
      ≤ cfg.RECV_BUF_LEN) :
    dl_request cfg gls collected =
      some (gls ++ decimal collected ++ [45] ++ decimal (collected + 4095) ++ CRLFCRLF) := by
  unfold dl_request
  simp only
  rw [if_pos]
  simp only [List.length_append, List.length_singleton, CRLFCRLF, List.length_cons,
    List.length_nil]
  omega

/-- A request that fits is built: `getlinestart` and the text in `recv_buf`. -/
theorem request_fits_built (cfg : Config) (g : Globals) (collected : Nat)
    (h : request_fits cfg g collected) :
    ∃ gls req, dl_getlinestart cfg g = some gls ∧ dl_request cfg gls collected = some req := by
  obtain ⟨h1, h2, h3, h4⟩ := h
  have hmod : (38 + (cstr g.last_location).length + (cstr g.last_host).length) % 65536 =
      38 + (cstr g.last_location).length + (cstr g.last_host).length := Nat.mod_eq_of_lt h3
  have hne : ¬ (38 + (cstr g.last_location).length + (cstr g.last_host).length = 0) := by omega
  have hg : dl_getlinestart cfg g = some
      ((cfg.REQUESTHEAD ++ cstr g.last_location ++ cfg.REQUESTTAIL ++ cstr g.last_host ++
        cfg.RANGE).take (38 + (cstr g.last_location).length + (cstr g.last_host).length - 1)) := by
    simp only [dl_getlinestart, cstr_of_mem _ h1, cstr_of_mem _ h2, hmod, if_neg hne]
  have hl := List.length_take_le
    (38 + (cstr g.last_location).length + (cstr g.last_host).length - 1)
    (cfg.REQUESTHEAD ++ cstr g.last_location ++ cfg.REQUESTTAIL ++ cstr g.last_host ++ cfg.RANGE)
  exact ⟨_, _, hg, dl_request_some cfg _ collected (by omega)⟩

/-! ## Ranged streaming fetch: bad responses -/

theorem dl_fuel_cons (sent : Int) (sends : List Int) (cs : List Conn) :
    dl_fuel (sent :: sends) cs =
      (sends.length + (cs.map (fun c => c.sends.length + 1)).sum) + 2 := by
  simp [dl_fuel]
  omega

/-- C7 (amended): for a flash sink (sector non-zero, buffer NULL), when the
redirect resolution has returned a positive value, the download connection is
up, the first request fits `recv_buf` and is sent, and the first read of the
first response holds a line beginning `content-length:` (any letter case) with
a CR behind it and no line beginning `content-range:`, `ota_get_file` returns 0
(not a negative code) and issues no sink operation. -/
theorem get_file_no_content_range (cfg : Config) (net : Net) (drv : Drv) (g : Globals)
    (repo file : List Nat) (sector : Nat) (conns : List Conn) (c : Conn) (cs : List Conn)
    (sent : Int) (sends : List Int) (pkt : List Nat) (rs : List Recv)
    (hs : sector ≠ 0)
    (hres : ∃ r g1 reqs, ota_get_final_location cfg net g repo file conns =
      Outcome.ret (r, g1, reqs, c :: cs) ∧ 0 < r ∧ request_fits cfg g1 0)
    (hc : c.retc = 0) (hsend : c.sends = sent :: sends) (hsent : 0 < sent)
    (hrecv : c.recvs = Recv.data pkt :: rs)
    (hcl : ∃ p, lc_match_at (cstr pkt) lit_clength p ∧ 13 ∈ (cstr pkt).drop p)
    (hcr : ∀ k, ¬ lc_match_at (cstr pkt) lit_crange k) :
    (ota_get_file cfg net drv g repo file sector conns).code = some 0 ∧
    (ota_get_file cfg net drv g repo file sector conns).ops = some [] := by
  obtain ⟨r, g1, reqs, hres, hr, hfit⟩ := hres
  obtain ⟨gls, req, hg, hreq⟩ := request_fits_built cfg g1 0 hfit
  obtain ⟨clength, hh⟩ := dl_header_no_content_range pkt hcl hcr
  have hpkt : pkt ≠ [] := by
    rintro rfl
    obtain ⟨p, hp, -⟩ := hcl
    have := lc_match_at_le (cstr []) lit_clength p (by simp [lit_clength]) hp
    simp [cstr, lit_clength] at this
  have hsink : ¬ (sector = 0 ∧ (none : Option (List Nat)) = none) := fun h => hs h.1
  unfold ota_get_file
  rw [ota_get_file_ex_download cfg net drv g repo file sector none 0 conns r g1 reqs c cs gls
    hsink hres hr hc hg, hsend, hrecv, dl_fuel_cons]
  have := dl_loop_header_stop cfg net drv sector (none : Option (List Nat)).isSome 0
    (sends.length + (cs.map (fun c => c.sends.length + 1)).sum) sent sends pkt rs cs
    { Dl.init g ((none : Option (List Nat)).getD []) with g := g1, retc := c.retc } clength
    gls req (by simp [Dl.init]) hsent hpkt (by simpa [Dl.init] using hreq) hh
  simpa [Dl.init] using this

set_option maxRecDepth 1000000 in
/-- C7 (the claim as stated fails): three probes over TLS time out with a
positive `wolfSSL_get_error` code, so that the redirect resolution returns
it; the first response to the download request is `200` with
`Content-Length: 5` and no `Content-Range`, into the flash slot at `0x2000`;
`ota_get_file` returns 0, which is not a negative error code. -/
theorem get_file_no_content_range_returns_zero :
    (ota_get_file cfg0 net_tls Drv.good (Globals.init cfg0) (ascii "a.example/v")
        (ascii "main.bin") 8192
        [conn_probe_timeout, conn_probe_timeout, conn_probe_timeout, conn_no_range]).code
      = some 0 := by
  decide

set_option maxRecDepth 1000000 in
/-- C7 (amended) at the run of the counterexample. -/
theorem get_file_no_content_range_witness :
    (ota_get_file cfg0 net_tls Drv.good (Globals.init cfg0) (ascii "a.example/v")
        (ascii "main.bin") 8192
        [conn_probe_timeout, conn_probe_timeout, conn_probe_timeout, conn_no_range]).code
      = some 0 ∧
    (ota_get_file cfg0 net_tls Drv.good (Globals.init cfg0) (ascii "a.example/v")
        (ascii "main.bin") 8192
        [conn_probe_timeout, conn_probe_timeout, conn_probe_timeout, conn_no_range]).ops
      = some [] :=
  get_file_no_content_range cfg0 net_tls Drv.good (Globals.init cfg0) (ascii "a.example/v")
    (ascii "main.bin") 8192
    [conn_probe_timeout, conn_probe_timeout, conn_probe_timeout, conn_no_range]
    conn_no_range [] 60 []
    (ascii "HTTP/1.1 200 OK\r\nContent-Length: 5\r\n\r\nhello") []
    (by decide) ⟨_, _, _, rfl, by decide, by decide⟩ rfl rfl (by decide) rfl
    ⟨16, by decide, by decide⟩ (by
      intro k
      by_cases hk : k < 45
      · interval_cases k <;> decide
      · intro h
        have := lc_match_at_le _ _ k (by decide) h
        have e : (cstr (ascii "HTTP/1.1 200 OK\r\nContent-Length: 5\r\n\r\nhello")).length = 43 := by
          decide
        have e2 : lit_crange.length = 15 := rfl
        omega)

/-! ## Ranged streaming fetch: oversize rejection -/

/-- A declared total length is the one that the header block reads. -/
theorem declares_total_read (is_buffer : Bool) (pkt : List Nat) (total : Int)
    (h : declares_total is_buffer pkt total) : declared_total is_buffer pkt = some total := by
  rcases h with ⟨hcl, hend, A, nm, mid, bt, rng, zs, rest, hs, hnm, hfirst, hbt, hfirstb, hmid,
    hrng, hzs, hrng47, rfl⟩ | ⟨hb, hnocr, hend, A, nm, val, rest, hs, hnm, hfirst, hval, rfl⟩
  · exact declared_total_content_range is_buffer pkt A nm mid bt rng zs rest hs hnm hfirst hbt
      hfirstb hmid hrng hzs hrng47 hcl hend
  · rw [hb]
    exact declared_total_content_length pkt A nm val rest hs hnm hfirst hval hnocr hend

theorem declares_total_nonempty (is_buffer : Bool) (pkt : List Nat) (total : Int)
    (h : declares_total is_buffer pkt total) : pkt ≠ [] := by
  have hend : ∃ e, lc_match_at (cstr pkt) CRLFCRLF e := by
    rcases h with ⟨-, hend, -⟩ | ⟨-, -, hend, -⟩ <;> exact hend
  obtain ⟨e, he⟩ := hend
  rintro rfl
  have := lc_match_at_le (cstr []) CRLFCRLF e (by simp [CRLFCRLF]) he
  simp [cstr, CRLFCRLF] at this

set_option maxRecDepth 1000000 in
/-- C6 (the claim as stated fails): after three probes over TLS that time out
with a positive `wolfSSL_get_error` code, the first response to the download
request declares `Content-Range: bytes 0-4095/9000000`, over
`MAXFILESIZE = 1048576`, but carries no `Content-Length` line; for the flash
slot at `0x2000` the header block stops at the missing `Content-Length` and
`ota_get_file` returns 0, not the file-too-big error `-10` (no sink operation
is issued). -/
theorem get_file_range_without_length :
    declared_total false
      (ascii "HTTP/1.1 206 Partial Content\r\nContent-Range: bytes 0-4095/9000000\r\n\r\nab")
      = none ∧
    (ota_get_file cfg0 net_tls Drv.good (Globals.init cfg0) (ascii "a.example/v")
        (ascii "main.bin") 8192
        [conn_probe_timeout, conn_probe_timeout, conn_probe_timeout, conn_range_only]).code
      = some 0 ∧
    (ota_get_file cfg0 net_tls Drv.good (Globals.init cfg0) (ascii "a.example/v")
        (ascii "main.bin") 8192
        [conn_probe_timeout, conn_probe_timeout, conn_probe_timeout, conn_range_only]).ops
      = some [] := by
  decide

/-- C6 (amended): whenever a download request is due (`collected < length`),
fits `recv_buf` and is sent, and the first read of the response declares a
total length greater than `MAXFILESIZE`, the call returns `-10` and the sink
operations are those issued before that read (no erase, write or copy from it
onwards); when the first response of `ota_get_file_ex` does so, after a
redirect resolution that returned a positive value and with the download
connection up, no sink operation is issued at all.  A read declares a total
(`declares_total`) when the string in it holds a line beginning
`content-length:` with a CR behind it, the end of the header, and as its first
line beginning `content-range:` that name, a text without CR, the word `bytes `
that is the first `bytes ` of the whole read, a range without `'/'` or CR, a
`'/'` and the text `Z` up to the next CR (total: `atoi` of `Z`); or, for a
buffer sink, when it holds no line beginning `content-range:`, the end of the
header and a first line beginning `content-length:` whose text up to the next
CR is `Z`.  Names and `bytes ` are matched in any letter case. -/
theorem too_big_aborts (cfg : Config) (net : Net) (drv : Drv) (sector : Nat) (bufsz : Int) :
    (∀ (is_buffer : Bool) (gls : List Nat) (fuel : Nat) (sent : Int) (sends : List Int)
        (pkt : List Nat) (rs : List Recv) (conns : List Conn) (st : Dl) (total : Int),
      (st.collected : Int) < st.length →
      gls.length + (decimal st.collected).length + (decimal (st.collected + 4095)).length + 6
        ≤ cfg.RECV_BUF_LEN →
      0 < sent → declares_total is_buffer pkt total → total > cfg.MAXFILESIZE →
      (dl_loop cfg net drv sector is_buffer bufsz gls (fuel + 1) (sent :: sends)
          (Recv.data pkt :: rs) conns st).code = some (-10) ∧
      (dl_loop cfg net drv sector is_buffer bufsz gls (fuel + 1) (sent :: sends)
          (Recv.data pkt :: rs) conns st).ops = some st.ops) ∧
    (∀ (g : Globals) (repo file : List Nat) (buffer : Option (List Nat)) (conns : List Conn)
        (c : Conn) (cs : List Conn) (sent : Int) (sends : List Int) (pkt : List Nat)
        (rs : List Recv) (total : Int),
      ¬ (sector = 0 ∧ buffer = none) →
      (∃ r g1 reqs, ota_get_final_location cfg net g repo file conns =
        Outcome.ret (r, g1, reqs, c :: cs) ∧ 0 < r ∧ request_fits cfg g1 0) →
      c.retc = 0 → c.sends = sent :: sends → 0 < sent → c.recvs = Recv.data pkt :: rs →
      declares_total buffer.isSome pkt total → total > cfg.MAXFILESIZE →
      (ota_get_file_ex cfg net drv g repo file sector buffer bufsz conns).code = some (-10) ∧
      (ota_get_file_ex cfg net drv g repo file sector buffer bufsz conns).ops = some []) := by
  refine ⟨?_, ?_⟩
  · intro is_buffer gls fuel sent sends pkt rs conns st total hgo hfit hsent hh hbig
    exact dl_loop_too_big cfg net drv sector is_buffer bufsz fuel sent sends pkt rs conns st
      total gls _ hgo hsent (declares_total_nonempty is_buffer pkt total hh)
      (dl_request_some cfg gls st.collected hfit)
      (declares_total_read is_buffer pkt total hh) hbig
  · intro g repo file buffer conns c cs sent sends pkt rs total hsink hres hc hsend hsent
      hrecv hh hbig
    obtain ⟨r, g1, reqs, hres, hr, hfit⟩ := hres
    obtain ⟨gls, req, hg, hreq⟩ := request_fits_built cfg g1 0 hfit
    rw [ota_get_file_ex_download cfg net drv g repo file sector buffer bufsz conns r g1 reqs c
      cs gls hsink hres hr hc hg, hsend, hrecv, dl_fuel_cons]
    have := dl_loop_too_big cfg net drv sector buffer.isSome bufsz
      (sends.length + (cs.map (fun c => c.sends.length + 1)).sum + 1) sent sends pkt rs cs
      { Dl.init g (buffer.getD []) with g := g1, retc := c.retc } total gls req
      (by simp [Dl.init]) hsent (declares_total_nonempty _ pkt total hh)
      (by simpa [Dl.init] using hreq) (declares_total_read _ pkt total hh) hbig
    simpa [Dl.init] using this

set_option maxRecDepth 1000000 in
/-- The read `pkt_too_big` declares the total 9000000 by its `Content-Range`
line. -/
theorem pkt_too_big_declares : declares_total false pkt_too_big 9000000 :=
  Or.inl ⟨⟨29, by decide, by decide⟩, ⟨87, by decide⟩,
    ascii "HTTP/1.1 206 Partial Content\r\nContent-Length: 4096\r", ascii "\nContent-Range:",
    ascii " ", ascii "bytes ", ascii "0-4095", ascii "9000000", ascii "\n\r\nab",
    by decide, by decide, by decide, by decide, by decide, by decide, by decide, by decide,
    by decide, by decide⟩

set_option maxRecDepth 1000000 in
/-- C6 (amended) at a first response with `Content-Length: 4096` and
`Content-Range: bytes 0-4095/9000000` that brings two body bytes along, after
three probes over TLS that time out: `-10`, and nothing reaches the flash. -/
theorem too_big_aborts_witness :
    declares_total false pkt_too_big 9000000 ∧
    (ota_get_file_ex cfg0 net_tls Drv.good (Globals.init cfg0) (ascii "a.example/v")
        (ascii "main.bin") 8192 none 0
        [conn_probe_timeout, conn_probe_timeout, conn_probe_timeout, conn_too_big]).code
      = some (-10) ∧
    (ota_get_file_ex cfg0 net_tls Drv.good (Globals.init cfg0) (ascii "a.example/v")
        (ascii "main.bin") 8192 none 0
        [conn_probe_timeout, conn_probe_timeout, conn_probe_timeout, conn_too_big]).ops
      = some [] :=
  ⟨pkt_too_big_declares,
   (too_big_aborts cfg0 net_tls Drv.good 8192 0).2 (Globals.init cfg0) (ascii "a.example/v")
    (ascii "main.bin") none
    [conn_probe_timeout, conn_probe_timeout, conn_probe_timeout, conn_too_big]
    conn_too_big [] 60 [] pkt_too_big [] 9000000 (by decide)
    ⟨_, _, _, rfl, by decide, by decide⟩ rfl rfl (by decide) rfl pkt_too_big_declares
    (by decide)⟩

/-! ## Redirect resolution: the parse of a response -/

theorem digitsVal_stop (s : List Nat) (acc : Nat) (h : ∀ c, s.head? = some c → isdigit c = false) :
    digitsVal s acc = acc := by
  cases s with
  | nil => rfl
  | cons c cs => simp [digitsVal, h c rfl]

theorem atoi_302 (s : List Nat) (h : ∀ c, s.head? = some c → isdigit c = false) :
    atoi ([51, 48, 50] ++ s) = 302 := by
  have e : digitsVal ([51, 48, 50] ++ s) 0 = 302 := by
    simp [digitsVal, isdigit, digitsVal_stop s _ h]
  have d : ([51, 48, 50] ++ s).dropWhile isspace = 51 :: 48 :: 50 :: s := by
    simp [List.dropWhile, isspace]
  unfold atoi
  rw [d]
  show clampInt (digitsVal ([51, 48, 50] ++ s) 0) = 302
  rw [e]
  decide

theorem tolower_ne_slash_of_mem_name (hdr : List Nat) (h : hdr.map tolower = lit_location_name)
    (c : Nat) (hc : c ∈ hdr) : tolower c ≠ 47 ∧ c ≠ 13 := by
  have hm : tolower c ∈ hdr.map tolower := List.mem_map_of_mem tolower hc
  rw [h] at hm
  constructor
  · intro e
    rw [e] at hm
    revert hm
    decide
  · intro e
    rw [e] at hm
    revert hm
    decide

/-- `strstr_lc` finds `//` right behind a run of characters none of which is a
slash. -/
theorem strstr_lc_slashes (x tail : List Nat) (hx : ∀ c ∈ x, tolower c ≠ 47) :
    strstr_lc SIZE_BITS (x ++ [47, 47] ++ tail) lit_slashes = Search.found x.length := by
  apply strstr_lc_found SIZE_BITS _ _ _ (by simp [lit_slashes])
  · exact lc_match_at_append x [47, 47] tail lit_slashes rfl
  · intro k hk
    have e : (x ++ [47, 47] ++ tail)[k]? = some x[k] := by
      rw [List.append_assoc, List.getElem?_append_left hk, List.getElem?_eq_getElem hk]
    apply not_lc_match_at_of_char _ _ k x[k] (by simp [lit_slashes]) e
    have := hx x[k] (List.getElem_mem _)
    simpa [lit_slashes, tolower] using this

/-- The parse of a `302` response with a well-formed `Location` header whose
host and path fit the arrays: `last_host` and `last_location` take host and
path; `i` and `ret` stay as they are, no failure is assigned. -/
theorem fl_parse_redirect (cfg : Config) (st : FL) (buffer : List Nat)
    (H P : List Nat) (hred : is_redirect buffer H P) (hH : H.length < cfg.HOST_LEN)
    (hP : P.length < cfg.RECV_BUF_LEN) :
    ∃ h l, fl_parse cfg st buffer =
        Outcome.ret { st with g := { st.g with last_host := h, last_location := l } } ∧
      h.length = cfg.HOST_LEN ∧ l.length = cfg.RECV_BUF_LEN ∧ cstr h = H ∧ cstr l = P := by
  obtain ⟨v, mid, hdr, sp, rest, hbuf, hv, hmid, hhdr, hsp, hfirst, hH47, hH13, hP13, hH0, hP0⟩ :=
    hred
  have hvl : v.length = 9 := by simpa [lit_http] using congrArg List.length hv
  have hhl : hdr.length = 9 := by simpa [lit_location_name] using congrArg List.length hhdr
  obtain ⟨pre, hpre⟩ : ∃ pre, pre = v ++ [51, 48, 50] ++ mid := ⟨_, rfl⟩
  obtain ⟨tgt, htgt⟩ : ∃ tgt, tgt = H ++ [47] ++ P := ⟨_, rfl⟩
  rw [← hpre] at hfirst
  rw [← hpre, ← htgt] at hbuf
  -- the status line
  have s1 : strstr_lc SIZE_BITS buffer lit_http = Search.found 0 := by
    apply strstr_lc_found SIZE_BITS _ _ _ (by simp [lit_http])
    · have := lc_match_at_append [] v ([51, 48, 50] ++ mid ++ ([10] ++ hdr ++ sp) ++
        ([47, 47] ++ tgt) ++ ([13] ++ rest)) lit_http (by rw [hv]; rfl)
      simpa [hbuf, hpre] using this
    · intro k hk
      omega
  have s2 : atoi (buffer.drop (0 + 9)) % 65536 = 302 := by
    have e : buffer.drop (0 + 9) = [51, 48, 50] ++ (mid ++ ([10] ++ hdr ++ sp) ++
        ([47, 47] ++ tgt) ++ ([13] ++ rest)) := by
      have e0 : buffer = v ++ ([51, 48, 50] ++ (mid ++ ([10] ++ hdr ++ sp) ++
          ([47, 47] ++ tgt) ++ ([13] ++ rest))) := by
        rw [hbuf, hpre]
        simp only [List.append_assoc]
      rw [e0, Nat.zero_add, ← hvl, List.drop_left]
    rw [e, atoi_302]
    · decide
    · intro c hc
      cases mid with
      | nil =>
        simp at hc
        subst hc
        decide
      | cons m ms =>
        simp at hc
        subst hc
        exact hmid m rfl
  -- the `Location` line
  have s3 : strstr_lc SIZE_BITS buffer lit_location = Search.found pre.length := by
    apply strstr_lc_found SIZE_BITS _ _ _ (by simp [lit_location])
    · have := lc_match_at_append pre ([10] ++ hdr)
        (sp ++ ([47, 47] ++ tgt) ++ ([13] ++ rest)) lit_location (by
          simp only [List.map_append, hhdr]
          rfl)
      have e0 : buffer = pre ++ ([10] ++ hdr) ++ (sp ++ ([47, 47] ++ tgt) ++ ([13] ++ rest)) := by
        rw [hbuf]
        simp only [List.append_assoc]
      rw [e0]
      exact this
    · exact hfirst
  have hn13 : (13 : Nat) ∉ ([10] ++ hdr ++ sp) ++ ([47, 47] ++ tgt) := by
    rw [htgt]
    simp only [List.mem_append, List.mem_cons, List.mem_singleton, List.not_mem_nil, not_or]
    refine ⟨⟨⟨by decide, fun h => (tolower_ne_slash_of_mem_name hdr hhdr 13 h).2 rfl⟩, ?_⟩,
      ⟨by decide, by decide, by simp⟩, ⟨⟨hH13, by decide⟩, hP13⟩⟩
    rcases hsp with rfl | rfl <;> simp
  obtain ⟨body, hbody⟩ : ∃ body, body = ([10] ++ hdr ++ sp) ++ ([47, 47] ++ tgt) := ⟨_, rfl⟩
  rw [← hbody] at hn13
  have e1 : buffer = pre ++ (body ++ 13 :: rest) := by
    rw [hbuf, hbody]
    simp only [List.append_assoc, List.singleton_append]
  have s4 : strchr 13 (buffer.drop pre.length) = some body.length := by
    rw [e1, List.drop_left, strchr_append_of_not_mem 13 _ rest hn13]
  have s5 : buffer.take (pre.length + body.length) = pre ++ body := by
    rw [e1, ← List.append_assoc]
    exact List.take_left' (by simp)
  -- the optional space and the two slashes
  have hx : ∀ c ∈ [10] ++ hdr, tolower c ≠ 47 := by
    intro c hc
    simp only [List.mem_append, List.mem_singleton] at hc
    rcases hc with rfl | hc
    · decide
    · exact (tolower_ne_slash_of_mem_name hdr hhdr c hc).1
  have hx2 : ∀ c ∈ hdr ++ [32], tolower c ≠ 47 := by
    intro c hc
    simp only [List.mem_append, List.mem_singleton] at hc
    rcases hc with hc | rfl
    · exact (tolower_ne_slash_of_mem_name hdr hhdr c hc).1
    · decide
  have hsplit := split_fits cfg tgt (by
      intro c hc
      rw [htgt] at hc
      simp only [List.mem_append, List.mem_singleton] at hc
      rcases hc with (hc | rfl) | hc
      · exact hH0 c hc
      · decide
      · exact hP0 c hc)
    (by rw [htgt, List.append_assoc]
        simpa [host_part, takeWhile_ne_append 47 H P hH47] using hH)
    (by rw [htgt, List.append_assoc]
        simpa [location_part, dropWhile_ne_append 47 H P hH47] using hP)
  obtain ⟨h, l, eh, el, hhlen, hllen, ch, cl⟩ := hsplit
  have ch' : cstr h = H := by
    rw [ch, htgt, List.append_assoc]
    simp [host_part, takeWhile_ne_append 47 H P hH47]
  have cl' : cstr l = P := by
    rw [cl, htgt, List.append_assoc]
    simp [location_part, dropWhile_ne_append 47 H P hH47]
  refine ⟨h, l, ?_, hhlen, hllen, ch', cl'⟩
  have hdrop : ∀ n, (pre ++ body).drop (pre.length + n) = body.drop n := by
    intro n
    rw [List.drop_append]
  have hidx : ∀ (t : List Nat), (hdr ++ t)[9]? = t[0]? := by
    intro t
    rw [List.getElem?_append_right (by omega), hhl]
  rcases hsp with rfl | rfl
  · have hb : body = ([10] ++ hdr) ++ [47, 47] ++ tgt := by
      rw [hbody]
      simp
    have c1 : charAt (pre ++ body) (pre.length + 10) = some 47 := by
      unfold charAt
      rw [List.append_assoc, List.getElem?_append_right (by omega), hb]
      simp [hidx]
    have c2 : strstr_lc SIZE_BITS ((pre ++ body).drop pre.length) lit_slashes
        = Search.found 10 := by
      rw [List.drop_left, hb, strstr_lc_slashes _ _ hx]
      simp [hhl]
    have c3 : (pre ++ body).drop (pre.length + 10 + 2) = tgt := by
      rw [Nat.add_assoc, hdrop, hb]
      have : (([10] ++ hdr) ++ [47, 47]).length = 10 + 2 := by simp [hhl]
      rw [← this, List.drop_left]
    have n1 : ¬ ((302 : Int) = 200 ∨ (302 : Int) = 206) := by decide
    simp only [fl_parse, s1, s2, s3, s4, s5, c1, n1, if_false, if_true, c2, c3, split_repo,
      eh, el, Option.some.injEq, Nat.reduceEqDiff]
  · have hb : body = (10 :: (hdr ++ [32])) ++ [47, 47] ++ tgt := by
      rw [hbody]
      simp
    have c1 : charAt (pre ++ body) (pre.length + 10) = some 32 := by
      unfold charAt
      rw [List.append_assoc, List.getElem?_append_right (by omega), hb]
      simp [hidx]
    have c2 : strstr_lc SIZE_BITS ((pre ++ body).drop (pre.length + 1)) lit_slashes
        = Search.found 10 := by
      rw [hdrop, hb]
      have : ((10 :: (hdr ++ [32])) ++ [47, 47] ++ tgt).drop 1 = (hdr ++ [32]) ++ [47, 47] ++ tgt := by
        simp
      rw [this, strstr_lc_slashes _ _ hx2]
      simp [hhl]
    have c3 : (pre ++ body).drop (pre.length + 1 + 10 + 2) = tgt := by
      rw [Nat.add_assoc, Nat.add_assoc, hdrop, hb]
      have : ((10 :: (hdr ++ [32])) ++ [47, 47]).length = 1 + (10 + 2) := by
        simp [hhl]
      rw [← this, List.drop_left]
    have n1 : ¬ ((302 : Int) = 200 ∨ (302 : Int) = 206) := by decide
    simp only [fl_parse, s1, s2, s3, s4, s5, c1, n1, if_false, if_true, c2, c3, split_repo,
      eh, el, Option.some.injEq, Nat.reduceEqDiff]

theorem is_redirect_nonempty (buffer H P : List Nat) (h : is_redirect buffer H P) :
    0 < buffer.length := by
  obtain ⟨v, mid, hdr, sp, rest, hbuf, -⟩ := h
  rw [hbuf]
  simp

theorem cstr_nonempty_imp (pkt : List Nat) (h : 0 < (cstr pkt).length) : 0 < pkt.length :=
  lt_of_lt_of_le h (List.takeWhile_sublist _).length_le

/-- `strcat` into an array with room. -/
theorem strcat_fits (dst src : List Nat) (h : (cstr dst ++ src).length + 1 ≤ dst.length)
    (hsrc : ∀ c ∈ src, c ≠ 0) :
    ∃ d, strcat dst src = some d ∧ d.length = dst.length ∧ cstr d = cstr dst ++ src := by
  refine ⟨cstr dst ++ src ++ [0] ++ dst.drop ((cstr dst ++ src).length + 1), ?_, ?_, ?_⟩
  · simp only [strcat, h, if_true]
  · simp only [List.length_append, List.length_drop, List.length_singleton] at h ⊢
    omega
  · rw [List.append_assoc (cstr dst ++ src)]
    apply cstr_append_nul
    intro c hc
    rcases List.mem_append.1 hc with hc | hc
    · have := List.mem_takeWhile_imp hc
      simpa using this
    · exact hsrc c hc

/-! ## Redirect resolution: the heap block of the response -/

theorem strcat_length (dst src d : List Nat) (h : strcat dst src = some d) :
    d.length = dst.length := by
  unfold strcat at h
  simp only at h
  split_ifs at h with hfit
  injection h with h
  rw [← h]
  simp only [List.length_append, List.length_drop, List.length_singleton] at hfit ⊢
  omega

theorem realloc_length (block : List Nat) (n : Nat) : (realloc block n).length = n := by
  simp only [realloc, zeroed, List.length_append, List.length_take, List.length_replicate]
  omega

/-- The heap block of `ota_get_final_location` has exactly `buffer_len`
bytes: `malloc(RECV_BUF_LEN)` with `buffer_len = RECV_BUF_LEN` at the start,
`realloc(buffer, buffer_len)` after every change of `buffer_len`. -/
theorem fl_recv_loop_block (cfg : Config) :
    ∀ (recvs : List Recv) (buffer : List Nat) (buffer_len : Nat) (all_ok : Bool) (r : Int)
      (b : List Nat) (bl : Nat) (ok : Bool), buffer.length = buffer_len →
      fl_recv_loop cfg recvs buffer buffer_len all_ok = Outcome.ret (r, b, bl, ok) →
      b.length = bl := by
  intro recvs
  induction recvs with
  | nil =>
    intro buffer buffer_len all_ok r b bl ok _ h
    simp [fl_recv_loop] at h
  | cons x xs ih =>
    intro buffer buffer_len all_ok r b bl ok hlen h
    rw [fl_recv_loop] at h
    by_cases hx : x.ret > 0
    · simp only [hx, if_true] at h
      cases hs : strcat (realloc buffer (buffer_len + (cstr x.bytes).length)) (cstr x.bytes) with
      | none => simp [hs] at h
      | some b1 =>
        have hb1 : b1.length = buffer_len + (cstr x.bytes).length := by
          rw [strcat_length _ _ _ hs, realloc_length]
        simp only [hs] at h
        by_cases hh : buffer_len + (cstr x.bytes).length < cfg.HEADER_BUFFER_LEN
        · simp only [hh, if_true] at h
          exact ih _ _ _ _ _ _ _ hb1 h
        · simp only [hh, if_false, Outcome.ret.injEq, Prod.mk.injEq] at h
          obtain ⟨-, rfl, rfl, -⟩ := h
          exact hb1
    · simp only [hx, if_false, Outcome.ret.injEq, Prod.mk.injEq] at h
      obtain ⟨-, rfl, rfl, -⟩ := h
      exact hlen

/-- On a block of exactly `buffer_len` bytes the store `buffer[ret] = 0` with
`ret = buffer_len` lies one byte past the block. -/
theorem fl_response_block (cfg : Config) (st : FL) (buffer : List Nat) (buffer_len : Nat)
    (h : buffer.length = buffer_len) : fl_response cfg st buffer buffer_len = Outcome.fault := by
  unfold fl_response
  simp only
  rw [if_neg (by omega)]

/-- The receive loop of `ota_get_final_location` on a read that delivers data
followed by a close or an error: it ends with `all_ok` set, or in a fault. -/
theorem fl_recv_loop_data (cfg : Config) (pkt : List Nat) (n : Nat) (more : List Recv)
    (buffer : List Nat) (buffer_len : Nat) (hpkt : 0 < pkt.length) :
    fl_recv_loop cfg (Recv.data pkt :: Recv.fail n :: more) buffer buffer_len false
        = Outcome.fault ∨
    ∃ r b bl, fl_recv_loop cfg (Recv.data pkt :: Recv.fail n :: more) buffer buffer_len false
        = Outcome.ret (r, b, bl, true) := by
  have hlen : (0 : Int) < (pkt.length : Int) := by exact_mod_cast hpkt
  have hn : ¬ ((0 : Int) < -(n : Int)) := by omega
  cases hs : strcat (realloc buffer (buffer_len + (cstr pkt).length)) (cstr pkt) with
  | none =>
    left
    simp [fl_recv_loop, Recv.ret, Recv.bytes, hlen, hs]
  | some b1 =>
    right
    by_cases hb : buffer_len + (cstr pkt).length < cfg.HEADER_BUFFER_LEN
    · exact ⟨-(n : Int), b1, buffer_len + (cstr pkt).length, by
        simp [fl_recv_loop, Recv.ret, Recv.bytes, hlen, hb, hn, hs]⟩
    · exact ⟨(pkt.length : Int), b1, buffer_len + (cstr pkt).length, by
        simp [fl_recv_loop, Recv.ret, Recv.bytes, hlen, hb, hs]⟩

/-- One iteration of the loop of `ota_get_final_location` on a connection on
which the request is sent and a response is read: the request does not fit
`recv_buf`, or the response is collected in the heap block and the store
`buffer[ret] = 0` lies past the block. -/
theorem fl_loop_response (cfg : Config) (net : Net) (c : Conn) (cs : List Conn) (st : FL)
    (sent : Int) (sends : List Int) (pkt : List Nat) (n : Nat) (more : List Recv)
    (hi : st.i < cfg.MAX_302_JUMPS) (hretc : c.retc = 0) (hsends : c.sends = sent :: sends)
    (hsent : 0 < sent) (hrecvs : c.recvs = Recv.data pkt :: Recv.fail n :: more)
    (hpkt : 0 < pkt.length) :
    fl_loop cfg net (c :: cs) st = Outcome.fault := by
  rw [fl_loop]
  simp only [hi, if_true]
  cases hreq : fl_request cfg st.g with
  | none => rfl
  | some recv_buf =>
    simp only [hretc, hsends, hrecvs, hsent, gt_iff_lt, if_true]
    rcases fl_recv_loop_data cfg pkt n more (zeroed cfg.RECV_BUF_LEN) cfg.RECV_BUF_LEN hpkt with
      h | ⟨r, b, bl, h⟩
    · rw [h]
    · have hbl := fl_recv_loop_block cfg _ _ _ _ _ _ _ _ (by simp [zeroed]) h
      rw [h]
      simp only [if_true]
      rw [fl_response_block cfg _ b bl hbl]

/-! ## Redirect resolution: the store behind the response -/

theorem cstr_zeroed_append (m : Nat) (t : List Nat) : cstr (zeroed m ++ zeroed 0 ++ t) = cstr t ∨
    cstr (zeroed m ++ zeroed 0 ++ t) = [] := by
  cases m with
  | zero => left; simp [zeroed]
  | succ k => right; simp [zeroed, cstr, List.replicate_succ]

theorem cstr_realloc_zeroed (m n : Nat) (hm : 0 < m) (hn : m ≤ n) :
    cstr (realloc (zeroed m) n) = [] := by
  obtain ⟨k, rfl⟩ : ∃ k, m = k + 1 := ⟨m - 1, by omega⟩
  have : (zeroed (k + 1)).take n = zeroed (k + 1) := by
    apply List.take_of_length_le
    simp [zeroed]
    omega
  rw [realloc, this]
  simp [zeroed, cstr, List.replicate_succ]

theorem cstr_mem_ne_zero (buf : List Nat) : ∀ c ∈ cstr buf, c ≠ 0 := by
  intro c hc
  have := List.mem_takeWhile_imp hc
  simpa using this

/-- C8 (the code at the failing inputs): for every host `H` and path `P` and
every read that delivers a `302` response with a well-formed `Location` header
for `//H/P`, followed by a close or an error, with `RECV_BUF_LEN > 0`: the
receive loop of `ota_get_final_location` collects the response in its heap
block, which has exactly `buffer_len` bytes, and sets `all_ok`; the branch
`if (all_ok)` then stores `buffer[ret] = 0` with `ret = buffer_len`, one byte
past the block, before the `Location` header is looked at.  The call leaves
defined behaviour there; `last_host` and `last_location` are not set to `H` and
`P` by a defined execution. -/
theorem location_response_store_out_of_bounds (cfg : Config) (st : FL) (pkt : List Nat)
    (n : Nat) (more : List Recv) (H P : List Nat) (hR : 0 < cfg.RECV_BUF_LEN)
    (hred : is_redirect (cstr pkt) H P) :
    ∃ r b, fl_recv_loop cfg (Recv.data pkt :: Recv.fail n :: more) (zeroed cfg.RECV_BUF_LEN)
        cfg.RECV_BUF_LEN false
        = Outcome.ret (r, b, cfg.RECV_BUF_LEN + (cstr pkt).length, true) ∧
      cstr b = cstr pkt ∧ b.length = cfg.RECV_BUF_LEN + (cstr pkt).length ∧
      fl_response cfg st b (cfg.RECV_BUF_LEN + (cstr pkt).length) = Outcome.fault := by
  have hne := is_redirect_nonempty _ H P hred
  have hpkt : 0 < pkt.length := cstr_nonempty_imp pkt hne
  have hlen : (0 : Int) < (pkt.length : Int) := by exact_mod_cast hpkt
  have hn : ¬ ((0 : Int) < -(n : Int)) := by omega
  have hc0 := cstr_realloc_zeroed cfg.RECV_BUF_LEN (cfg.RECV_BUF_LEN + (cstr pkt).length) hR
    (by omega)
  obtain ⟨d, hd, hdl, hdc⟩ := strcat_fits
    (realloc (zeroed cfg.RECV_BUF_LEN) (cfg.RECV_BUF_LEN + (cstr pkt).length)) (cstr pkt)
    (by rw [hc0, realloc_length]; simp; omega) (cstr_mem_ne_zero pkt)
  rw [hc0, List.nil_append] at hdc
  rw [realloc_length] at hdl
  by_cases hb : cfg.RECV_BUF_LEN + (cstr pkt).length < cfg.HEADER_BUFFER_LEN
  · exact ⟨-(n : Int), d, by simp [fl_recv_loop, Recv.ret, Recv.bytes, hlen, hb, hn, hd], hdc,
      hdl, fl_response_block cfg st d _ hdl⟩
  · exact ⟨(pkt.length : Int), d, by simp [fl_recv_loop, Recv.ret, Recv.bytes, hlen, hb, hd],
      hdc, hdl, fl_response_block cfg st d _ hdl⟩

set_option maxRecDepth 1000000 in
/-- The response `pkt_302` is a well-formed redirect to `b.example` and `v2`. -/
theorem pkt_302_is_redirect : is_redirect (cstr pkt_302) (ascii "b.example") (ascii "v2") :=
  ⟨ascii "HTTP/1.1 ", ascii " Found\r\nServer: x\r", ascii "Location:", [32],
    ascii "\nContent-Length: 0\r\n\r\n", by decide, by decide, by decide, by decide,
    by decide, by decide, by decide, by decide, by decide, by decide, by decide⟩

set_option maxRecDepth 1000000 in
/-- C8 at the `302` response `pkt_302` with `Location: //b.example/v2` and
`RECV_BUF_LEN = 1025`: the block has 1103 bytes and the store goes to index
1103. -/
theorem location_response_store_out_of_bounds_witness :
    (∃ r b, fl_recv_loop cfg0 [Recv.data pkt_302, Recv.fail 0] (zeroed cfg0.RECV_BUF_LEN)
        cfg0.RECV_BUF_LEN false
        = Outcome.ret (r, b, cfg0.RECV_BUF_LEN + (cstr pkt_302).length, true) ∧
      cstr b = cstr pkt_302 ∧ b.length = cfg0.RECV_BUF_LEN + (cstr pkt_302).length ∧
      fl_response cfg0 fl0 b (cfg0.RECV_BUF_LEN + (cstr pkt_302).length) = Outcome.fault) ∧
    cfg0.RECV_BUF_LEN + (cstr pkt_302).length = 1103 :=
  ⟨location_response_store_out_of_bounds cfg0 fl0 pkt_302 0 [] (ascii "b.example")
    (ascii "v2") (by decide) pkt_302_is_redirect, by decide⟩

/-! ## Redirect resolution: a script of redirects -/

/-- C3 (the code at the failing inputs): when the connection that the first
probe takes answers with a well-formed `302` (connect, send and receive
succeed; the later connections of the script are arbitrary, so they may all do
likewise), `ota_get_final_location` neither issues `MAX_302_JUMPS` requests nor
returns a failure value: in its first iteration the `if (all_ok)` branch stores
`buffer[ret] = 0` one byte past the heap block (or an array was overrun before
that: `repo`, `file` or the request do not fit), so the call leaves defined
behaviour, and with it `ota_get_file_ex`, which returns no negative code. -/
theorem redirect_response_faults (cfg : Config) (net : Net) (drv : Drv) (g : Globals)
    (repo file : List Nat) (sector : Nat) (buffer : Option (List Nat)) (bufsz : Int)
    (c : Conn) (cs : List Conn) (hc : redirects cfg c)
    (hsink : ¬ (sector = 0 ∧ buffer = none)) :
    ota_get_final_location cfg net g repo file (c :: cs) = Outcome.fault ∧
    ota_get_file_ex cfg net drv g repo file sector buffer bufsz (c :: cs) = Outcome.fault := by
  obtain ⟨hretc, ⟨sent, more, hsends, hsent⟩, pkt, n, more2, H, P, hrecvs, hred, -, -⟩ := hc
  have hpkt : 0 < pkt.length := cstr_nonempty_imp pkt (is_redirect_nonempty _ H P hred)
  have h1 : ota_get_final_location cfg net g repo file (c :: cs) = Outcome.fault := by
    unfold ota_get_final_location
    cases hsplit : split_repo cfg g repo with
    | none => rfl
    | some g1 =>
      simp only
      generalize hl : (if (cstr g1.last_location).length > 0 then
          (strcat g1.last_location [47]).bind (fun l => strcat l file)
        else strcat g1.last_location file) = loc
      cases loc with
      | none => rfl
      | some l =>
        simp only
        by_cases hM : cfg.MAX_302_JUMPS = 0
        · rw [if_pos hM]
        · rw [if_neg hM, fl_loop_response cfg net c cs _ sent more pkt n more2
            (by show 0 < cfg.MAX_302_JUMPS; omega) hretc hsends hsent hrecvs hpkt]
  refine ⟨h1, ?_⟩
  unfold ota_get_file_ex
  simp only [hsink, if_false, h1]

set_option maxRecDepth 1000000 in
/-- C3 at `MAX_302_JUMPS = 3` and three connections that answer `302` with
`Location: //b.example/v2`, followed by one that would serve the file. -/
theorem redirect_response_faults_witness :
    ota_get_final_location cfg0 net0 (Globals.init cfg0) (ascii "a.example/v")
      (ascii "main.bin") [conn_302, conn_302, conn_302, conn_file] = Outcome.fault ∧
    ota_get_file_ex cfg0 net0 Drv.good (Globals.init cfg0) (ascii "a.example/v")
      (ascii "main.bin") 8192 none 0 [conn_302, conn_302, conn_302, conn_file]
      = Outcome.fault :=
  redirect_response_faults cfg0 net0 Drv.good (Globals.init cfg0) (ascii "a.example/v")
    (ascii "main.bin") 8192 none 0 conn_302 [conn_302, conn_302, conn_file]
    ⟨rfl, ⟨60, [], rfl, by decide⟩, pkt_302, 0, [], ascii "b.example", ascii "v2", rfl,
      pkt_302_is_redirect, by decide, by decide⟩
    (by decide)

set_option maxRecDepth 1000000 in
/-- The same store is reached when the probe is answered `206`: a download over
plain TCP whose probe gets a response leaves defined behaviour before the
download request is sent. -/
theorem probe_answered_faults :
    ota_get_file_ex cfg0 net0 Drv.good (Globals.init cfg0) (ascii "a.example/v")
      (ascii "main.bin") 8192 none 0 [conn_probe_ok, conn_file] = Outcome.fault := by
  decide

/-! ## `strstr_lc`: the first occurrence -/

/-- C12: for every haystack `full` and every non-empty needle `search` with
`len(search) ≤ len(full)`, `strstr_lc` returns the position `k` exactly when `k`
is the first (smallest) index at which `search` occurs in `full` with ASCII
letter case ignored, and it returns NULL exactly when `search` occurs nowhere. -/
theorem strstr_lc_first_occurrence (w : Nat) (full search : List Nat)
    (hs : search ≠ []) (hle : search.length ≤ full.length) :
    (∀ k, strstr_lc w full search = Search.found k ↔
      (lc_match_at full search k ∧ ∀ k1, k1 < k → ¬ lc_match_at full search k1)) ∧
    (strstr_lc w full search = Search.null ↔ ∀ k, ¬ lc_match_at full search k) := by
  by_cases h : ∃ k, lc_match_at full search k
  · obtain ⟨k, hk⟩ := h
    obtain ⟨k0, _, hm0, hf0⟩ := strstr_lc_of_occurs w full search k hs hk
    have hmin : ∀ k1, k1 < k0 → ¬ lc_match_at full search k1 := by
      intro k1 hk1 hm1
      obtain ⟨k2, hk2, hm2, hf2⟩ := strstr_lc_of_occurs w full search k1 hs hm1
      rw [hf0] at hf2
      injection hf2 with he
      omega
    refine ⟨fun j => ⟨fun hj => ?_, fun hj => ?_⟩, ⟨fun hn => ?_, fun hn => ?_⟩⟩
    · rw [hf0] at hj
      injection hj with he
      subst he
      exact ⟨hm0, hmin⟩
    · exact strstr_lc_found w full search j hs hj.1 hj.2
    · rw [hf0] at hn
      cases hn
    · exact absurd hk (hn k)
  · have hno : ∀ k, ¬ lc_match_at full search k := fun k hk => h ⟨k, hk⟩
    have hnull := strstr_lc_null w full search hs hle hno
    refine ⟨fun j => ⟨fun hj => ?_, fun hj => absurd hj.1 (hno j)⟩, ⟨fun _ => hno, fun _ => hnull⟩⟩
    rw [hnull] at hj
    cases hj

set_option maxRecDepth 1000000 in
/-- The first-occurrence property at a header with two `Location` lines in
different letter case: the result is the first one, at index 2. -/
theorem strstr_lc_first_occurrence_witness :
    strstr_lc SIZE_BITS (ascii "x\r\nLOCATION: a\r\nlocation: b") (ascii "\nlocation:")
      = Search.found 2 ∧
    lc_match_at (ascii "x\r\nLOCATION: a\r\nlocation: b") (ascii "\nlocation:") 2 ∧
    lc_match_at (ascii "x\r\nLOCATION: a\r\nlocation: b") (ascii "\nlocation:") 15 :=
  have h := strstr_lc_first_occurrence SIZE_BITS (ascii "x\r\nLOCATION: a\r\nlocation: b")
    (ascii "\nlocation:") (by decide) (by decide)
  ⟨(h.1 2).2 ⟨by decide, by decide⟩, ((h.1 2).1 ((h.1 2).2 ⟨by decide, by decide⟩)).1, by decide⟩

/-! ## `strstr_lc`: a haystack shorter than the needle -/

theorem tolower_eq_zero (c : Nat) : tolower c = 0 ↔ c = 0 := by
  unfold tolower
  by_cases h : 65 ≤ c ∧ c ≤ 90
  · rw [if_pos h]
    have h1 := h.1
    constructor
    · intro h2
      omega
    · intro h2
      omega
  · rw [if_neg h]

theorem charAt_length (s : List Nat) : charAt s s.length = some 0 := by
  simp [charAt]

theorem charAt_beyond (s : List Nat) (i : Nat) (h : s.length < i) : charAt s i = none := by
  unfold charAt
  apply List.getElem?_eq_none
  simp
  omega

/-- A character of a NUL-free needle is not NUL. -/
theorem getD_ne_zero (search : List Nat) (hnul : ∀ c ∈ search, c ≠ 0) (j : Nat)
    (hj : j < search.length) : search.getD j 0 ≠ 0 := by
  rw [getD_of_lt search j hj]
  exact hnul _ (List.getElem_mem hj)

/-- With a haystack shorter than the needle the inner loop of `strstr_lc` ends
by `break`, at the latest on the terminating NUL. -/
theorem strstr_lc_inner_short (full search : List Nat) (i : Nat)
    (hlt : full.length < search.length) (hnul : ∀ c ∈ search, c ≠ 0) :
    ∀ n j, i + j ≤ full.length → full.length < i + j + n →
      strstr_lc_inner full search i n j = none := by
  intro n
  induction n with
  | zero => intro j h1 h2; omega
  | succ n ih =>
    intro j h1 h2
    rw [strstr_lc_inner]
    by_cases hL : i + j < full.length
    · rw [charAt_of_lt full (i + j) hL]
      simp only
      split_ifs with h3 h4
      · rfl
      · omega
      · exact ih (j + 1) (by omega) (by omega)
    · have he : i + j = full.length := by omega
      rw [he, charAt_length]
      simp only
      have hne : tolower 0 ≠ tolower (search.getD j 0) := by
        intro h
        have h0 : tolower (search.getD j 0) = 0 := by rw [← h]; rfl
        exact getD_ne_zero search hnul j (by omega) ((tolower_eq_zero _).1 h0)
      rw [if_pos hne]

/-- With a haystack shorter than the needle the outer loop of `strstr_lc` runs
over the whole string and its terminator and then reads index `strlen + 1`. -/
theorem strstr_lc_loop_short (w : Nat) (full search : List Nat)
    (hlt : full.length < search.length) (hw : search.length < 2 ^ w)
    (hnul : ∀ c ∈ search, c ≠ 0) :
    ∀ fuel i, i ≤ full.length + 1 → full.length + 1 < i + fuel →
      strstr_lc_loop w full search fuel i = Search.outside (full.length + 1) := by
  have hb : size_sub w full.length search.length = 2 ^ w - (search.length - full.length) := by
    unfold size_sub
    rw [if_neg (by omega)]
  intro fuel
  induction fuel with
  | zero => intro i h1 h2; omega
  | succ f ih =>
    intro i h1 h2
    rw [strstr_lc_loop, hb]
    generalize 2 ^ w = p at hw
    rw [if_pos (by omega)]
    rcases Nat.lt_trichotomy i full.length with hi | hi | hi
    · rw [charAt_of_lt full i hi]
      simp only
      rw [strstr_lc_inner_short full search i hlt hnul search.length 0 (by omega) (by omega)]
      simp only [ite_self]
      exact ih (i + 1) (by omega) (by omega)
    · rw [hi, charAt_length]
      simp only
      have hne : ¬ tolower 0 = tolower (search.getD 0 0) := by
        intro h
        have h0 : tolower (search.getD 0 0) = 0 := by rw [← h]; rfl
        exact getD_ne_zero search hnul 0 (by omega) ((tolower_eq_zero _).1 h0)
      rw [if_neg hne]
      exact ih (full.length + 1) (by omega) (by omega)
    · have he : i = full.length + 1 := by omega
      rw [he, charAt_beyond full (full.length + 1) (by omega)]

/-- C13: for every haystack `full` and NUL-free needle `search` with
`len(full) < len(search) < 2 ^ w`, the loop bound `strlen(full) - search_len`
wraps in `size_t` arithmetic to `2 ^ w - (len(search) - len(full))`, which is
at least `len(full) + 1`, and `strstr_lc` does not return NULL: after the
terminating NUL at index `len(full)` it reads `full[len(full) + 1]`, outside
the string. -/
theorem strstr_lc_short_haystack (w : Nat) (full search : List Nat)
    (hlt : full.length < search.length) (hw : search.length < 2 ^ w)
    (hnul : ∀ c ∈ search, c ≠ 0) :
    strstr_lc w full search = Search.outside (full.length + 1) ∧
    strstr_lc w full search ≠ Search.null ∧
    size_sub w full.length search.length = 2 ^ w - (search.length - full.length) ∧
    full.length + 1 ≤ size_sub w full.length search.length := by
  have h := strstr_lc_loop_short w full search hlt hw hnul (full.length + 2) 0
    (by omega) (by omega)
  have hb : size_sub w full.length search.length = 2 ^ w - (search.length - full.length) := by
    unfold size_sub
    rw [if_neg (by omega)]
  refine ⟨h, ?_, hb, ?_⟩
  · unfold strstr_lc
    rw [h]
    intro hc
    cases hc
  · rw [hb]
    generalize 2 ^ w = p at hw
    omega

set_option maxRecDepth 1000000 in
/-- A first packet of five bytes, `HTTP/`, searched for `"\ncontent-length:"`
as `ota_get_file_ex` does: the bound is `5 - 16 = 4294967285` in 32 bits, and
the search reads index 6 of a string whose terminator is at index 5. -/
theorem strstr_lc_short_haystack_witness :
    (ascii "HTTP/").length < lit_clength.length ∧
    strstr_lc SIZE_BITS (ascii "HTTP/") lit_clength = Search.outside 6 ∧
    size_sub SIZE_BITS (ascii "HTTP/").length lit_clength.length = 4294967285 :=
  have h := strstr_lc_short_haystack SIZE_BITS (ascii "HTTP/") lit_clength
    (by decide) (by decide) (by decide)
  ⟨by decide, h.1, by decide⟩

/-! ## Flash sink: the writes of a download -/

theorem writes_of_append (a b : List SinkOp) : writes_of (a ++ b) = writes_of a ++ writes_of b := by
  simp [writes_of, List.filter_append]

/-- The first non-empty read through the flash sink: byte 0 goes to
`file_first_byte`, the rest is written at `sector + 1`. -/
theorem dl_sink_first (drv : Drv) (he : ∀ a, drv.eraseOk a = true)
    (hw : ∀ a n, drv.writeOk a n = true) (sector : Nat) (hs : sector ≠ 0)
    (st : Dl) (d : List Nat) (hc : st.collected = 0) :
    ∃ st1, dl_sink drv sector 0 st d = Step.go st1 ∧
      writes_of st1.ops = writes_of st.ops ++ [SinkOp.write (sector + 1) (d.drop 1)] ∧
      st1.g.file_first_byte = d.getD 0 0 ∧ st1.collected = d.length := by
  refine ⟨_, dl_sink_good drv he hw sector hs st d, ?_, ?_, ?_⟩
  · split_ifs <;> first | contradiction | simp [writes_of_append, writes_of]
  · split_ifs <;> first | contradiction | rfl
  · split_ifs <;> first | contradiction | simp [hc]

/-- A later read through the flash sink: the whole read is written at
`sector + collected`. -/
theorem dl_sink_later (drv : Drv) (he : ∀ a, drv.eraseOk a = true)
    (hw : ∀ a n, drv.writeOk a n = true) (sector : Nat) (hs : sector ≠ 0)
    (st : Dl) (d : List Nat) (hc : st.collected ≠ 0) :
    ∃ st1, dl_sink drv sector 0 st d = Step.go st1 ∧
      writes_of st1.ops = writes_of st.ops ++ [SinkOp.write (sector + st.collected) d] ∧
      st1.g = st.g ∧ st1.collected = st.collected + d.length := by
  refine ⟨_, dl_sink_good drv he hw sector hs st d, ?_, ?_, ?_⟩
  · split_ifs <;> first | contradiction | simp [writes_of_append, writes_of]
  · split_ifs <;> first | contradiction | rfl
  · split_ifs <;> first | contradiction | rfl

/-- The flash sink on a sequence of non-empty reads after the first: it does
not stop, and its writes are `later_writes`. -/
theorem sink_run_later (drv : Drv) (he : ∀ a, drv.eraseOk a = true)
    (hw : ∀ a n, drv.writeOk a n = true) (sector : Nat) (hs : sector ≠ 0)
    (chunks : List (List Nat)) (hch : ∀ d ∈ chunks, d ≠ []) (st : Dl)
    (hc : 0 < st.collected) :
    ∃ st1, sink_run drv sector chunks st = Step.go st1 ∧
      writes_of st1.ops = writes_of st.ops ++ later_writes sector st.collected chunks ∧
      st1.g = st.g := by
  induction chunks generalizing st with
  | nil => exact ⟨st, rfl, by simp [later_writes], rfl⟩
  | cons d ds ih =>
    have hd : d ≠ [] := hch d (List.mem_cons_self _ _)
    have hlen : (d.length : Int) > 0 := by
      have := List.length_pos.2 hd
      exact_mod_cast this
    obtain ⟨st1, h1, h2, h3, h4⟩ := dl_sink_later drv he hw sector hs st d (by omega)
    obtain ⟨st2, k1, k2, k3⟩ := ih (fun x hx => hch x (List.mem_cons_of_mem _ hx)) st1
      (by omega)
    refine ⟨st2, ?_, ?_, ?_⟩
    · rw [sink_run, if_pos hlen, h1]
      exact k1
    · rw [k2, h2, h4, later_writes, List.append_assoc]
      rfl
    · rw [k3, h3]

theorem run_ops_cons (op : SinkOp) (ops : List SinkOp) (fl : Flash) :
    run_ops (op :: ops) fl = run_ops ops (op.apply fl) := rfl

/-- Effect of the later writes on the flash: the bytes of the chunks land at
`start + collected` onwards, nothing else changes. -/
theorem run_ops_later_writes (start : Nat) (ds : List (List Nat)) :
    ∀ (c : Nat) (fl : Flash) (x : Nat), run_ops (later_writes start c ds) fl x =
      if start + c ≤ x ∧ x < start + c + ds.flatten.length
      then ds.flatten.getD (x - (start + c)) 0 else fl x := by
  induction ds with
  | nil =>
    intro c fl x
    have : ¬ (start + c ≤ x ∧ x < start + c) := by omega
    simp [later_writes, run_ops, this]
  | cons d ds ih =>
    intro c fl x
    rw [later_writes, run_ops_cons, ih]
    simp only [SinkOp.apply, List.flatten_cons, List.length_append]
    by_cases h1 : start + (c + d.length) ≤ x ∧ x < start + (c + d.length) + ds.flatten.length
    · rw [if_pos h1, if_pos (by omega), List.getD_append_right _ _ _ _ (by omega)]
      congr 1
      omega
    · rw [if_neg h1]
      by_cases h2 : start + c ≤ x ∧ x < start + c + d.length
      · rw [if_pos h2, if_pos (by omega), List.getD_append _ _ _ _ (by omega)]
      · rw [if_neg h2, if_neg (by omega)]

theorem getD_drop_one (d : List Nat) (k : Nat) (hk : 1 ≤ k) :
    (d.drop 1).getD (k - 1) 0 = d.getD k 0 := by
  simp only [List.getD_eq_getElem?_getD, List.getElem?_drop]
  congr 2
  omega

/-- Effect of all the writes on the flash: byte `k` of the stream lands at
`start + k`, for `1 ≤ k`. -/
theorem run_ops_expected_writes (start : Nat) (chunks : List (List Nat)) (fl : Flash)
    (k : Nat) (h1 : 1 ≤ k) (h2 : k < chunks.flatten.length) :
    run_ops (expected_writes start chunks) fl (start + k) = chunks.flatten.getD k 0 := by
  cases chunks with
  | nil => simp at h2
  | cons d ds =>
    simp only [List.flatten_cons, List.length_append] at h2
    rw [expected_writes, run_ops_cons, run_ops_later_writes]
    simp only [SinkOp.apply, List.flatten_cons, List.length_drop]
    by_cases h3 : d.length ≤ k
    · rw [if_pos (by omega), List.getD_append_right _ _ _ _ h3]
      congr 1
      omega
    · rw [if_neg (by omega), if_pos (by omega), List.getD_append _ _ _ _ (by omega)]
      have : start + k - (start + 1) = k - 1 := by omega
      rw [this, getD_drop_one d k h1]

/-- The later writes are contiguous from `start + collected`. -/
theorem contiguous_later_writes (start : Nat) (ds : List (List Nat)) :
    ∀ c, contiguous_from (start + c) (later_writes start c ds) := by
  induction ds with
  | nil => intro c; simp [later_writes, contiguous_from]
  | cons d ds ih =>
    intro c
    rw [later_writes, contiguous_from]
    refine ⟨rfl, ?_⟩
    rw [Nat.add_assoc]
    exact ih (c + d.length)

/-- All the writes are contiguous from `start + 1`. -/
theorem contiguous_expected_writes (start : Nat) (chunks : List (List Nat))
    (hch : ∀ d ∈ chunks, d ≠ []) : contiguous_from (start + 1) (expected_writes start chunks) := by
  cases chunks with
  | nil => simp [expected_writes, contiguous_from]
  | cons d ds =>
    have hlen := List.length_pos.2 (hch d (List.mem_cons_self _ _))
    rw [expected_writes, contiguous_from]
    refine ⟨rfl, ?_⟩
    have : start + 1 + (d.drop 1).length = start + d.length := by
      rw [List.length_drop]
      omega
    rw [this]
    exact contiguous_later_writes start ds d.length

/-- The addresses of the later writes ascend strictly from `start + collected`. -/
theorem later_writes_ascending (start : Nat) (ds : List (List Nat))
    (hch : ∀ d ∈ ds, d ≠ []) :
    ∀ c, ((later_writes start c ds).map SinkOp.addr).Pairwise (fun a b => a < b) ∧
      ∀ a ∈ (later_writes start c ds).map SinkOp.addr, start + c ≤ a := by
  induction ds with
  | nil => intro c; simp [later_writes]
  | cons d ds ih =>
    intro c
    have hlen := List.length_pos.2 (hch d (List.mem_cons_self _ _))
    obtain ⟨i1, i2⟩ := ih (fun x hx => hch x (List.mem_cons_of_mem _ hx)) (c + d.length)
    rw [later_writes, List.map_cons, List.pairwise_cons]
    refine ⟨⟨?_, i1⟩, ?_⟩
    · intro a ha
      have := i2 a ha
      simp only [SinkOp.addr]
      omega
    · intro a ha
      rcases List.mem_cons.1 ha with h | h
      · rw [h]
        simp [SinkOp.addr]
      · have := i2 a h
        omega

/-- C11 (amended): for every non-empty sequence of non-empty body chunks with
concatenation `s`, run through the flash sink of `ota_get_file_ex` from a fresh
download state with every flash call succeeding, the sink does not stop and its
writes are: the first chunk without its first byte at `sector + 1`, then each
later chunk whole at `sector + collected`.  These writes are contiguous from
`sector + 1`; their addresses ascend (each is at most the next), strictly from
the second write on, and strictly throughout when the first chunk has at least
two bytes; together they carry `s[k]` to `sector + k` for every
`1 ≤ k < len(s)`; `file_first_byte[0]` is `s[0]`; and `ota_finalize_file`
issues the one write of `[s[0]]` at `sector`. -/
theorem flash_sink_writes (drv : Drv) (he : ∀ a, drv.eraseOk a = true)
    (hw : ∀ a n, drv.writeOk a n = true) (sector : Nat) (hs : sector ≠ 0)
    (g : Globals) (buf : List Nat) (chunks : List (List Nat)) (hne : chunks ≠ [])
    (hch : ∀ d ∈ chunks, d ≠ []) :
    ∃ st, sink_run drv sector chunks (Dl.init g buf) = Step.go st ∧
      writes_of st.ops = expected_writes sector chunks ∧
      contiguous_from (sector + 1) (writes_of st.ops) ∧
      ((writes_of st.ops).map SinkOp.addr).Pairwise (fun a b => a ≤ b) ∧
      ((writes_of st.ops).map SinkOp.addr).tail.Pairwise (fun a b => a < b) ∧
      ((∀ d, chunks.head? = some d → 2 ≤ d.length) →
        ((writes_of st.ops).map SinkOp.addr).Pairwise (fun a b => a < b)) ∧
      (∀ (fl : Flash) (k : Nat), 1 ≤ k → k < chunks.flatten.length →
        chunks.flatten[k]? = some (run_ops (writes_of st.ops) fl (sector + k))) ∧
      chunks.flatten.head? = some st.g.file_first_byte ∧
      ota_finalize_file st.g sector = [SinkOp.write sector (chunks.flatten.take 1)] := by
  cases chunks with
  | nil => exact absurd rfl hne
  | cons d ds =>
    have hd : d ≠ [] := hch d (List.mem_cons_self _ _)
    have hpos : 0 < d.length := List.length_pos.2 hd
    have hlen : (d.length : Int) > 0 := by exact_mod_cast hpos
    have hds : ∀ x ∈ ds, x ≠ [] := fun x hx => hch x (List.mem_cons_of_mem _ hx)
    obtain ⟨st1, h1, h2, h3, h4⟩ := dl_sink_first drv he hw sector hs (Dl.init g buf) d rfl
    obtain ⟨st2, k1, k2, k3⟩ := sink_run_later drv he hw sector hs ds hds st1 (by omega)
    have hW : writes_of st2.ops = expected_writes sector (d :: ds) := by
      rw [k2, h2, h4, expected_writes]
      simp [Dl.init, writes_of]
    obtain ⟨a1, a2⟩ := later_writes_ascending sector ds hds d.length
    have hfb : st2.g.file_first_byte = d.getD 0 0 := by rw [k3, h3]
    refine ⟨st2, ?_, hW, ?_, ?_, ?_, ?_, ?_, ?_, ?_⟩
    · rw [sink_run, if_pos hlen, h1]
      exact k1
    · rw [hW]
      exact contiguous_expected_writes sector (d :: ds) hch
    · rw [hW, expected_writes, List.map_cons, List.pairwise_cons]
      refine ⟨?_, a1.imp (fun h => Nat.le_of_lt h)⟩
      intro a ha
      have := a2 a ha
      simp only [SinkOp.addr]
      omega
    · rw [hW, expected_writes, List.map_cons, List.tail_cons]
      exact a1
    · intro h2len
      have h2d : 2 ≤ d.length := h2len d rfl
      rw [hW, expected_writes, List.map_cons, List.pairwise_cons]
      refine ⟨?_, a1⟩
      intro a ha
      have := a2 a ha
      simp only [SinkOp.addr]
      omega
    · intro fl k hk1 hk2
      rw [hW, run_ops_expected_writes sector (d :: ds) fl k hk1 hk2,
        getD_of_lt _ k hk2, List.getElem?_eq_getElem hk2]
    · rw [hfb]
      cases d with
      | nil => exact absurd rfl hd
      | cons x xs => simp
    · rw [ota_finalize_file, hfb]
      cases d with
      | nil => exact absurd rfl hd
      | cons x xs => simp

set_option maxRecDepth 1000000 in
/-- The writes of a download at three chunks of 3, 2 and 1 bytes into sector
`0x2000`: addresses `0x2001`, `0x2003`, `0x2005`, first byte `0xE9` withheld. -/
theorem flash_sink_writes_witness :
    ∃ st, sink_run Drv.good 8192 [[233, 7, 8], [1, 2], [3]] (Dl.init (Globals.init cfg0) [])
        = Step.go st ∧
      writes_of st.ops =
        [SinkOp.write 8193 [7, 8], SinkOp.write 8195 [1, 2], SinkOp.write 8197 [3]] ∧
      st.g.file_first_byte = 233 ∧
      ota_finalize_file st.g 8192 = [SinkOp.write 8192 [233]] := by
  obtain ⟨st, h1, h2, _, _, _, _, _, h8, h9⟩ :=
    flash_sink_writes Drv.good (fun _ => rfl) (fun _ _ => rfl) 8192 (by decide)
      (Globals.init cfg0) [] [[233, 7, 8], [1, 2], [3]] (by decide) (by decide)
  refine ⟨st, h1, h2.trans (by decide), ?_, h9.trans (by decide)⟩
  have h : some 233 = some st.g.file_first_byte := h8
  injection h with h
  exact h.symm

set_option maxRecDepth 1000000 in
/-- C11, the claim as worded fails at a first chunk of one byte: for the chunks
`[0xE9]`, `[0x01]` into sector `0x2000` the sink issues an empty write at
`0x2001` (`spiflash_write(sector + 1, recv_buf + 1, 0)`) and then the write of
the second chunk at `sector + collected = 0x2001`, so that the addresses of the
writes are not strictly ascending. -/
theorem flash_sink_one_byte_first_chunk :
    (∀ d ∈ [[233], [1]], d ≠ ([] : List Nat)) ∧
    (sink_run Drv.good 8192 [[233], [1]] (Dl.init (Globals.init cfg0) [])).state.ops =
      [SinkOp.erase 8192, SinkOp.write 8193 [], SinkOp.write 8193 [1]] ∧
    ¬ ((writes_of (sink_run Drv.good 8192 [[233], [1]]
        (Dl.init (Globals.init cfg0) [])).state.ops).map SinkOp.addr).Pairwise
          (fun a b => a < b) := by
  decide

end HAA_OTA
